import Mathlib

/-!
Shallow embedding of the mt2ph5 shard placement, indexing and linking
core (src/ph5_tools.py, src/mttoph5.py), together with theorems checking
the natural-language specification's claims against it.

Conventions: Python dictionaries are association lists, Python `None`
is `Option.none`, mutation is explicit state passing, and machine
integers are `Nat`/`Int` (no overflow is relevant to these functions).
-/

set_option autoImplicit false

namespace Mt2Ph5

/-! ### Zero-padded numbering (`'{0:05}'.format(n)` and `Data_a_` names) -/

/-- The decimal digit character for `n < 10`. -/
def digitChar : Nat → Char
  | 0 => '0' | 1 => '1' | 2 => '2' | 3 => '3' | 4 => '4'
  | 5 => '5' | 6 => '6' | 7 => '7' | 8 => '8' | 9 => '9'
  | _ => '*'

/-- Numeric value of a decimal digit character. -/
def digitVal : Char → Nat
  | '0' => 0 | '1' => 1 | '2' => 2 | '3' => 3 | '4' => 4
  | '5' => 5 | '6' => 6 | '7' => 7 | '8' => 8 | '9' => 9
  | _ => 10

/-- Decimal digits of a natural number, most significant first
(fuel-indexed so it is structurally recursive; `n + 1` fuel always
suffices since a number has at most `n + 1` digits). -/
def natDigitsAux : Nat → Nat → List Char
  | 0, _ => []
  | fuel + 1, n =>
    if n < 10 then [digitChar n]
    else natDigitsAux fuel (n / 10) ++ [digitChar (n % 10)]

/-- Decimal digits of a natural number, most significant first. -/
def natDigits (n : Nat) : List Char := natDigitsAux (n + 1) n

/-- Value of a digit list (base 10, most significant first). -/
def digitsVal (l : List Char) : Nat :=
  l.foldl (fun a c => 10 * a + digitVal c) 0

/-- Python `'{0:05}'.format(n)` for natural `n`: decimal digits of `n`
left-padded with zeros to a minimum width `w`. -/
def padZeros (w : Nat) (n : Nat) : String :=
  let s : String := ⟨natDigits n⟩
  ⟨List.replicate (w - s.length) '0'⟩ ++ s

/-- The data-array name `"Data_a_{0:05}".format(n)` used in
`generic2ph5.add_channel` and `MTtoPH5.single_ts_to_ph5`. -/
def data_array_name (n : Nat) : String :=
  "Data_a_" ++ padZeros 5 n

/-! ### Shard catalog model

`generic2ph5.das_station_map` rows are dictionaries with a data-logger
`serial` and a `station` name (read from the master's sorts-group array
tables); `generic2ph5.mini_map` rows describe one existing mini (shard)
file: its number, the das serials it hosts, and its size in bytes.
`get_current_mini_num` consumes both, so they are parameters of the
embedding. -/

structure DasStationEntry where
  serial : String
  station : String
  deriving DecidableEq, Repr

structure MiniEntry where
  num : Nat
  das_list : List String
  size : Nat
  deriving DecidableEq, Repr

/-- The `largest` computation inside `get_current_mini_num`
(`largest = 0; for station in self.mini_map: if station['num'] >= largest: ...`).
Note this inner loop rebinds the Python variable `station`. -/
def largest_num (mini_map : List MiniEntry) : Nat :=
  mini_map.foldl (fun l m => if l ≤ m.num then m.num else l) 0

/-- Loop state of `get_current_mini_num`: the accumulator `current_mini`
(`none` = Python `None`) and the current value of the Python variable
`station`.  After the `largest` loop has run once, `station` holds the
last element of `mini_map` (a dictionary), so the comparison
`entry['station'] == station` can never again be true; we model that
shadowed state as `stationVar = none`. -/
structure MiniLoopState where
  current : Option Nat
  stationVar : Option String
  deriving DecidableEq, Repr

/-- Python truthiness test `if not current_mini:`: true for `None` and for `0`. -/
def currentFalsy : Option Nat → Bool
  | none => true
  | some n => n == 0

/-- The inner loop `for entry in self.das_station_map: if (entry['serial'] in
mini['das_list'] and entry['station'] == station): current_mini = mini['num']`. -/
def hostScan (das_map : List DasStationEntry) (mini : MiniEntry)
    (stationVar : Option String) (current : Option Nat) : Option Nat :=
  das_map.foldl
    (fun cur entry =>
      if entry.serial ∈ mini.das_list ∧ stationVar = some entry.station then
        some mini.num
      else cur)
    current

/-- One iteration of the outer `for mini in self.mini_map:` loop of
`get_current_mini_num`, including the fallback branch that computes
`largest`, shadows `station`, and checks `mini['size']` (the size of the
mini currently being iterated). -/
def mini_step (das_map : List DasStationEntry) (mini_map : List MiniEntry)
    (mini_size_max : Nat) (st : MiniLoopState) (mini : MiniEntry) : MiniLoopState :=
  let cur := hostScan das_map mini st.stationVar st.current
  if currentFalsy cur then
    let largest := largest_num mini_map
    { current := some (if mini.size < mini_size_max then largest else largest + 1),
      stationVar := none }
  else
    { current := cur, stationVar := st.stationVar }

/-- Embedding of `generic2ph5.get_current_mini_num(station, first_mini=1)`.
The catalog (`mini_map`, in `os.listdir` enumeration order) and the
`das_station_map` are the data the method reads from the store; the size
ceiling is the attribute `self.mini_size_max`.  Returns the chosen mini
(shard) number. -/
def get_current_mini_num (das_map : List DasStationEntry) (mini_map : List MiniEntry)
    (station : String) (first_mini : Nat) (mini_size_max : Nat) : Nat :=
  if mini_map.isEmpty then first_mini
  else
    ((mini_map.foldl (mini_step das_map mini_map mini_size_max)
      { current := none, stationVar := some station }).current).getD 0

/-- The default size ceiling `self.mini_size_max = 26843545600` (25 GB). -/
def default_mini_size_max : Nat := 26843545600

/-! ### Helper lemmas about the allocator loop -/

/-- If the station is not hosted by `mini` (no das-map entry matches), the
inner scan leaves `current_mini` unchanged. -/
theorem hostScan_of_not_hosted (das_map : List DasStationEntry) (mini : MiniEntry)
    (stv : Option String) (cur : Option Nat)
    (h : ∀ e ∈ das_map, ¬(e.serial ∈ mini.das_list ∧ stv = some e.station)) :
    hostScan das_map mini stv cur = cur := by
  induction das_map with
  | nil => rfl
  | cons e es ih =>
    have he := h e (List.mem_cons_self e es)
    simp only [hostScan, List.foldl_cons, if_neg he]
    exact ih fun x hx => h x (List.mem_cons_of_mem e hx)

/-- With the `station` variable shadowed, the inner scan never matches. -/
theorem hostScan_shadowed (das_map : List DasStationEntry) (mini : MiniEntry)
    (cur : Option Nat) : hostScan das_map mini none cur = cur := by
  apply hostScan_of_not_hosted
  intro e _ hcontra
  exact Option.noConfusion hcontra.2

/-- Once `current_mini` holds a nonzero value and `station` is shadowed,
every further iteration of the outer loop is a no-op. -/
theorem mini_step_stable (das_map : List DasStationEntry) (mini_map : List MiniEntry)
    (M : Nat) (v : Nat) (hv : v ≠ 0) (mini : MiniEntry) :
    mini_step das_map mini_map M { current := some v, stationVar := none } mini =
      { current := some v, stationVar := none } := by
  simp only [mini_step, hostScan_shadowed, currentFalsy]
  simp [hv]

theorem foldl_mini_step_stable (das_map : List DasStationEntry) (mini_map : List MiniEntry)
    (M : Nat) (v : Nat) (hv : v ≠ 0) (rest : List MiniEntry) :
    rest.foldl (mini_step das_map mini_map M) { current := some v, stationVar := none } =
      { current := some v, stationVar := none } := by
  induction rest with
  | nil => rfl
  | cons m ms ih => rw [List.foldl_cons, mini_step_stable das_map mini_map M v hv m, ih]

/-- The start value is a lower bound for the `largest` fold. -/
theorem le_foldl_largest (l : List MiniEntry) (a : Nat) :
    a ≤ l.foldl (fun l m => if l ≤ m.num then m.num else l) a := by
  induction l generalizing a with
  | nil => exact le_refl a
  | cons y ys ih =>
    simp only [List.foldl_cons]
    by_cases hay : a ≤ y.num
    · simp only [if_pos hay]
      exact le_trans hay (ih y.num)
    · simp only [if_neg hay]
      exact ih a

/-- Every member's number is bounded by the `largest` fold (any start). -/
theorem num_le_foldl_largest (l : List MiniEntry) (a : Nat) (m : MiniEntry)
    (hm : m ∈ l) : m.num ≤ l.foldl (fun l m => if l ≤ m.num then m.num else l) a := by
  induction l generalizing a with
  | nil => cases hm
  | cons x xs ih =>
    simp only [List.foldl_cons]
    rcases List.mem_cons.mp hm with h | h
    · subst h
      have hx : m.num ≤ if a ≤ m.num then m.num else a := by
        by_cases ham : a ≤ m.num
        · simp [ham]
        · simp only [if_neg ham]
          exact le_of_not_le ham
      exact le_trans hx (le_foldl_largest xs _)
    · exact ih _ h

/-- Every mini number is bounded by `largest_num`. -/
theorem le_largest_num (mini_map : List MiniEntry) (m : MiniEntry) (hm : m ∈ mini_map) :
    m.num ≤ largest_num mini_map :=
  num_le_foldl_largest mini_map 0 m hm

/-- A station/instrument id is hosted by a shard iff some das-map entry ties
its serial to that shard and its station name to the id. -/
def hostedBy (das_map : List DasStationEntry) (station : String) (mini : MiniEntry) : Prop :=
  ∃ e ∈ das_map, e.serial ∈ mini.das_list ∧ e.station = station

/-- What `get_current_mini_num` actually computes when the instrument is not
hosted by any existing shard: on the very first iteration the fallback fires,
computing `largest` over all shards but testing the size of the
*first-enumerated* shard `m0` (not the newest); later iterations are no-ops
because the Python variable `station` has been shadowed by the `largest`
loop. -/
theorem get_current_mini_num_not_hosted (das_map : List DasStationEntry)
    (m0 : MiniEntry) (rest : List MiniEntry) (station : String) (first_mini M : Nat)
    (hnum : ∀ m ∈ m0 :: rest, 1 ≤ m.num)
    (hnot : ∀ m ∈ m0 :: rest, ¬ hostedBy das_map station m) :
    get_current_mini_num das_map (m0 :: rest) station first_mini M =
      (if m0.size < M then largest_num (m0 :: rest) else largest_num (m0 :: rest) + 1) := by
  have hscan : hostScan das_map m0 (some station) none = none := by
    apply hostScan_of_not_hosted
    intro e he hc
    exact hnot m0 (List.mem_cons_self m0 rest) ⟨e, he, hc.1, by
      cases hc.2 with
      | refl => rfl⟩
  set v : Nat := if m0.size < M then largest_num (m0 :: rest) else largest_num (m0 :: rest) + 1
    with hv
  have hv1 : 1 ≤ v := by
    have h0 : 1 ≤ m0.num := hnum m0 (List.mem_cons_self m0 rest)
    have hl : m0.num ≤ largest_num (m0 :: rest) :=
      le_largest_num (m0 :: rest) m0 (List.mem_cons_self m0 rest)
    rw [hv]
    by_cases hs : m0.size < M
    · simp only [if_pos hs]; omega
    · simp only [if_neg hs]; omega
  have hstep : mini_step das_map (m0 :: rest) M { current := none, stationVar := some station } m0
      = { current := some v, stationVar := none } := by
    simp only [mini_step, hscan, currentFalsy, hv, if_true]
  unfold get_current_mini_num
  simp only [List.isEmpty_cons, List.foldl_cons, hstep,
    foldl_mini_step_stable das_map (m0 :: rest) M v (by omega) rest]
  rfl

/-!  ## Claim C1  -/

/-- C1, counterexample.  Claim C1 states that when the instrument is hosted by
no shard, the allocator tests the size of the shard with the *numerically
largest* number (the newest).  In this store two shards exist, `miniPH5_00001`
(size 0) and `miniPH5_00002` (size equal to the ceiling, i.e. full), and the
station `"MT02"` is hosted nowhere.  The claim demands `largest + 1 = 3`
(the newest shard is at the ceiling); the code returns `2` because the loop
tests the size of the first-enumerated shard (number 1, size 0), not the
newest. -/
theorem C1_counterexample :
    get_current_mini_num []
      [{ num := 1, das_list := ["S1"], size := 0 },
       { num := 2, das_list := ["S9"], size := default_mini_size_max }]
      "MT02" 1 default_mini_size_max = 2 ∧ (2 : Nat) ≠ 2 + 1 := by
  constructor
  · rfl
  · decide

/-- C1, amended.  For an instrument hosted by no existing shard, with at least
one shard present (all shard numbers positive), `get_current_mini_num` returns
the numerically largest existing shard number if the *first-enumerated*
shard's size is below `mini_size_max`, and `largest + 1` otherwise.  (The
claim's "newest shard's size" is wrong: the size tested is that of the first
shard in catalog enumeration order.) -/
theorem C1_amended (das_map : List DasStationEntry) (m0 : MiniEntry)
    (rest : List MiniEntry) (station : String) (first_mini M : Nat)
    (hnum : ∀ m ∈ m0 :: rest, 1 ≤ m.num)
    (hnot : ∀ m ∈ m0 :: rest, ¬ hostedBy das_map station m) :
    get_current_mini_num das_map (m0 :: rest) station first_mini M =
      (if m0.size < M then largest_num (m0 :: rest) else largest_num (m0 :: rest) + 1) :=
  get_current_mini_num_not_hosted das_map m0 rest station first_mini M hnum hnot

/-- C1 witness: concrete instance of `C1_amended` — one existing, full shard
number 1 and a new instrument: the allocator opens shard 2 (Scenario B's
first half). -/
theorem C1_amended_witness :
    get_current_mini_num [{ serial := "S1", station := "MT01" }]
      [{ num := 1, das_list := ["S1"], size := default_mini_size_max }]
      "MT02" 1 default_mini_size_max = 2 := by
  have h := C1_amended [{ serial := "S1", station := "MT01" }]
    { num := 1, das_list := ["S1"], size := default_mini_size_max } [] "MT02" 1
    default_mini_size_max
    (by intro m hm; rcases List.mem_singleton.mp hm with rfl; decide)
    (by
      intro m hm
      rcases List.mem_singleton.mp hm with rfl
      rintro ⟨e, he, _, hstation⟩
      rcases List.mem_singleton.mp he with rfl
      exact absurd hstation (by decide))
  simpa using h

/-!  ## Claim C2  -/

/-- C2, code bug.  The spec's co-location invariant says later recordings for
an instrument stay on the shard that hosts it while that shard is under the
ceiling.  Here shard 1 hosts `"MT01"` (serial `"S1"`), both shards are far
below the ceiling, but the catalog enumerates shard 2 first; the code returns
shard 2, splitting the instrument across shards.  Cause: `get_current_mini_num`
takes its fallback branch on the first iteration and its inner loop
`for station in self.mini_map` shadows the `station` parameter, so the
host check can never match on later iterations. -/
theorem C2_code_eval :
    get_current_mini_num [{ serial := "S1", station := "MT01" }]
      [{ num := 2, das_list := ["S2"], size := 0 },
       { num := 1, das_list := ["S1"], size := 0 }]
      "MT01" 1 default_mini_size_max = 2 ∧ (2 : Nat) ≠ 1 := by
  constructor
  · rfl
  · decide

/-! ### Record namer: the `Data_a_NNNNN` probe loop

`MTtoPH5.single_ts_to_ph5` (and, with a hard-coded start of 1,
`generic2ph5.add_channel`) runs

    while True:
        next_ = '{0:05}'.format(count)
        ... = "Data_a_{0}".format(next_)
        node = ...find_trace_ref(name)
        if not node: break
        count = count + 1

against the mini file's current das group.  The set of array names already
present in that group is the `existing` list; `find_trace_ref` is membership
in it. -/

/-- The probe loop, fuel-indexed: starting at `count`, increment while
`data_array_name count` is already present, return the first free counter. -/
def probe_count (existing : List String) : Nat → Nat → Nat
  | 0, count => count
  | fuel + 1, count =>
    if data_array_name count ∈ existing then probe_count existing fuel (count + 1)
    else count

/-- The first free counter at or after `count`: `existing.length + 1` probes
always suffice (pigeonhole, since padded names are injective). -/
def next_free_count (existing : List String) (count : Nat) : Nat :=
  probe_count existing (existing.length + 1) count

/-! #### Injectivity of the padded names -/

theorem digitVal_digitChar (n : Nat) (h : n < 10) : digitVal (digitChar n) = n := by
  interval_cases n <;> rfl

theorem digitsVal_append_singleton (l : List Char) (c : Char) :
    digitsVal (l ++ [c]) = 10 * digitsVal l + digitVal c := by
  simp [digitsVal, List.foldl_append]

theorem digitsVal_natDigitsAux (fuel n : Nat) (h : n < fuel) :
    digitsVal (natDigitsAux fuel n) = n := by
  induction fuel generalizing n with
  | zero => omega
  | succ fuel ih =>
    by_cases h10 : n < 10
    · simp [natDigitsAux, h10, digitsVal, digitVal_digitChar n h10]
    · have hdiv : n / 10 < n := Nat.div_lt_self (by omega) (by omega)
      have hmod : n % 10 < 10 := Nat.mod_lt _ (by omega)
      simp only [natDigitsAux, if_neg h10, digitsVal_append_singleton,
        ih (n / 10) (by omega), digitVal_digitChar _ hmod]
      omega

theorem digitsVal_natDigits (n : Nat) : digitsVal (natDigits n) = n :=
  digitsVal_natDigitsAux (n + 1) n (Nat.lt_succ_self n)

theorem digitsVal_replicate_zero_append (k : Nat) (l : List Char) :
    digitsVal (List.replicate k '0' ++ l) = digitsVal l := by
  induction k with
  | zero => simp
  | succ k ih =>
    simpa [List.replicate_succ, digitsVal, List.foldl_cons] using ih

/-- The padded rendering is injective: its decimal value is recoverable. -/
theorem digitsVal_padZeros (w n : Nat) : digitsVal (padZeros w n).data = n := by
  show digitsVal (List.replicate _ '0' ++ natDigits n) = n
  rw [digitsVal_replicate_zero_append, digitsVal_natDigits]

theorem padZeros_injective (w : Nat) : Function.Injective (padZeros w) := by
  intro m n h
  have := digitsVal_padZeros w m
  rw [h, digitsVal_padZeros w n] at this
  exact this.symm

theorem data_array_name_injective : Function.Injective data_array_name := by
  intro m n h
  apply padZeros_injective 5
  have hd : ("Data_a_" ++ padZeros 5 m).data = ("Data_a_" ++ padZeros 5 n).data := by
    rw [show ("Data_a_" ++ padZeros 5 m : String) = data_array_name m from rfl, h]; rfl
  simp only [String.data_append] at hd
  exact String.ext (List.append_cancel_left hd)

/-! #### Correctness of the probe -/

theorem probe_count_ge (existing : List String) (fuel count : Nat) :
    count ≤ probe_count existing fuel count := by
  induction fuel generalizing count with
  | zero => exact le_refl _
  | succ fuel ih =>
    simp only [probe_count]
    by_cases h : data_array_name count ∈ existing
    · simp only [if_pos h]
      exact le_trans (Nat.le_succ count) (ih (count + 1))
    · simp [h]

/-- If some counter within `fuel` steps of `count` is free, the probe finds
the least free counter at or after `count`. -/
theorem probe_count_correct (existing : List String) (fuel count : Nat)
    (h : ∃ k < fuel, data_array_name (count + k) ∉ existing) :
    data_array_name (probe_count existing fuel count) ∉ existing ∧
      ∀ m, count ≤ m → m < probe_count existing fuel count →
        data_array_name m ∈ existing := by
  induction fuel generalizing count with
  | zero =>
    obtain ⟨k, hk, _⟩ := h
    omega
  | succ fuel ih =>
    by_cases hc : data_array_name count ∈ existing
    · obtain ⟨k, hk, hfree⟩ := h
      have hk0 : k ≠ 0 := by
        intro h0
        rw [h0, Nat.add_zero] at hfree
        exact hfree hc
      have hnext : ∃ k < fuel, data_array_name (count + 1 + k) ∉ existing :=
        ⟨k - 1, by omega, by
          have : count + 1 + (k - 1) = count + k := by omega
          rw [this]; exact hfree⟩
      obtain ⟨ihfree, ihmin⟩ := ih (count + 1) hnext
      simp only [probe_count, if_pos hc]
      refine ⟨ihfree, ?_⟩
      intro m hm hlt
      rcases Nat.eq_or_lt_of_le hm with heq | hlt'
      · rw [← heq]; exact hc
      · exact ihmin m hlt' hlt
    · simp only [probe_count, if_neg hc]
      exact ⟨hc, by omega⟩

/-- Pigeonhole: among the `existing.length + 1` names probed starting at
`count`, at least one is not in `existing`. -/
theorem exists_free_name (existing : List String) (count : Nat) :
    ∃ k < existing.length + 1, data_array_name (count + k) ∉ existing := by
  by_contra hall
  push_neg at hall
  set L : List String :=
    (List.range (existing.length + 1)).map (fun k => data_array_name (count + k)) with hL
  have hnodup : L.Nodup := by
    refine List.Nodup.map ?_ (List.nodup_range _)
    intro a b hab
    have := data_array_name_injective hab
    omega
  have hsub : L ⊆ existing := by
    intro s hs
    rw [hL] at hs
    obtain ⟨k, hk, rfl⟩ := List.mem_map.mp hs
    exact hall k (List.mem_range.mp hk)
  have hcard : L.length ≤ existing.length := by
    calc L.length = L.toFinset.card := (List.toFinset_card_of_nodup hnodup).symm
      _ ≤ existing.toFinset.card := Finset.card_le_card (fun x hx =>
          List.mem_toFinset.mpr (hsub (List.mem_toFinset.mp hx)))
      _ ≤ existing.length := existing.toFinset_card_le
  rw [hL] at hcard
  simp at hcard

/-- `next_free_count` returns the least counter `n ≥ count` whose
`Data_a_NNNNN` name is not yet present. -/
theorem next_free_count_correct (existing : List String) (count : Nat) :
    count ≤ next_free_count existing count ∧
      data_array_name (next_free_count existing count) ∉ existing ∧
      ∀ m, count ≤ m → m < next_free_count existing count →
        data_array_name m ∈ existing := by
  obtain ⟨hfree, hmin⟩ :=
    probe_count_correct existing (existing.length + 1) count
      (exists_free_name existing count)
  exact ⟨probe_count_ge existing _ count, hfree, hmin⟩

/-! #### Distinctness of generated names -/

/-- Generating a sequence of array names inside one das group: each request
(with an arbitrary caller-supplied start counter) probes the current set of
names and the chosen name is then written into the group (`newarray`). -/
def gen_names (existing : List String) : List Nat → List String
  | [] => []
  | c :: cs =>
    let n := next_free_count existing c
    data_array_name n :: gen_names (existing ++ [data_array_name n]) cs

theorem gen_names_nodup_aux (cs : List Nat) (existing : List String) :
    (gen_names existing cs).Nodup ∧ ∀ s ∈ gen_names existing cs, s ∉ existing := by
  induction cs generalizing existing with
  | nil => simp [gen_names]
  | cons c cs ih =>
    obtain ⟨ihnodup, ihfresh⟩ := ih (existing ++ [data_array_name (next_free_count existing c)])
    have hfree := (next_free_count_correct existing c).2.1
    constructor
    · refine List.nodup_cons.mpr ⟨?_, ihnodup⟩
      intro hmem
      have := ihfresh _ hmem
      simp at this
    · intro s hs
      rcases List.mem_cons.mp hs with rfl | hs'
      · exact hfree
      · intro hex
        exact ihfresh s hs' (by simp [hex])

/-!  ## Claim C4  -/

/-- C4, confirmed.  The record-name probe started at counter `c` against a
das group whose existing array names are `existing` returns
`Data_a_` + 5-digit-zero-padded `n` for the least `n ≥ c` whose name is not
already present; starting from 1 when `Data_a_00001` exists it yields counter
2 (name `Data_a_00002`); and names generated this way (probe, then write)
within one group are pairwise distinct whatever the start counters. -/
theorem C4_record_namer (existing : List String) (c : Nat) (starts : List Nat) :
    (c ≤ next_free_count existing c ∧
      data_array_name (next_free_count existing c) ∉ existing ∧
      ∀ m, c ≤ m → m < next_free_count existing c → data_array_name m ∈ existing) ∧
    next_free_count ["Data_a_00001"] 1 = 2 ∧
    data_array_name 2 = "Data_a_00002" ∧
    (gen_names existing starts).Nodup :=
  ⟨next_free_count_correct existing c, by decide, by decide,
    (gen_names_nodup_aux starts existing).1⟩

/-- C4 witness: the theorem applied at a concrete group state (`Data_a_00001`
present, start counter 1, two further generations). -/
theorem C4_record_namer_witness :
    (1 ≤ next_free_count ["Data_a_00001"] 1 ∧
      data_array_name (next_free_count ["Data_a_00001"] 1) ∉ ["Data_a_00001"] ∧
      ∀ m, 1 ≤ m → m < next_free_count ["Data_a_00001"] 1 →
        data_array_name m ∈ ["Data_a_00001"]) ∧
    next_free_count ["Data_a_00001"] 1 = 2 ∧
    data_array_name 2 = "Data_a_00002" ∧
    (gen_names ["Data_a_00001"] [1, 1]).Nodup :=
  C4_record_namer ["Data_a_00001"] 1 [1, 1]

/-! ### Cross-reference lookups: `get_receiver_n` / `get_response_n`

Both methods linearly scan `self.get_arrays()` (every row of every array
table in the master's sorts group) and return the stored table number of the
first row matching (station, sample rate, channel number); if no row matches
they return `len(self.get_arrays())`. -/

/-- One row of a sorts-group array table, restricted to the fields these
lookups read. -/
structure ArrayRow where
  id_s : String
  sample_rate_i : Nat
  channel_number_i : Nat
  receiver_table_n_i : Nat
  response_table_n_i : Nat
  das_serial_number_s : String
  deriving DecidableEq, Repr

/-- The match condition of the `if` inside both loops. -/
def rowMatches (station : String) (sample_rate channel_number : Nat)
    (r : ArrayRow) : Bool :=
  r.sample_rate_i == sample_rate && r.channel_number_i == channel_number &&
    r.id_s == station

/-- Embedding of `generic2ph5.get_receiver_n` (`arrays` = `self.get_arrays()`). -/
def get_receiver_n (arrays : List ArrayRow) (station : String)
    (sample_rate channel_number : Nat) : Nat :=
  match arrays.find? (rowMatches station sample_rate channel_number) with
  | some r => r.receiver_table_n_i
  | none => arrays.length

/-- Embedding of `generic2ph5.get_response_n`. -/
def get_response_n (arrays : List ArrayRow) (station : String)
    (sample_rate channel_number : Nat) : Nat :=
  match arrays.find? (rowMatches station sample_rate channel_number) with
  | some r => r.response_table_n_i
  | none => arrays.length

theorem find?_append_cons {α : Type} (p : α → Bool) (pre : List α) (r : α)
    (post : List α) (h1 : ∀ x ∈ pre, p x = false) (h2 : p r = true) :
    List.find? p (pre ++ r :: post) = some r := by
  induction pre with
  | nil => simp [List.find?_cons_of_pos _ h2]
  | cons x xs ih =>
    have hx : p x = false := h1 x (List.mem_cons_self x xs)
    rw [List.cons_append, List.find?_cons_of_neg _ (by simp [hx])]
    exact ih fun y hy => h1 y (List.mem_cons_of_mem x hy)

/-!  ## Claim C6  -/

/-- C6, counterexample.  With a single stored row (station `"A"`, rate 1,
channel 1, receiver table number 1, response table number 1), looking up the
non-matching triple (`"B"`, 1, 1) returns `len(arrays) = 1` — the very table
number stored in (and the 1-based row number of) the existing row, so the
"not found" value is *not* distinct from every valid row number. -/
theorem C6_counterexample :
    get_receiver_n [(⟨"A", 1, 1, 1, 1, "D"⟩ : ArrayRow)] "B" 1 1 = 1 ∧
    (⟨"A", 1, 1, 1, 1, "D"⟩ : ArrayRow).receiver_table_n_i = 1 ∧
    rowMatches "B" 1 1 (⟨"A", 1, 1, 1, 1, "D"⟩ : ArrayRow) = false := by
  refine ⟨?_, rfl, by decide⟩
  decide

/-- C6, amended.  When no stored row matches the (station, rate, channel)
triple, both lookups return the *count* of existing rows — a fixed fallback
that is not guaranteed distinct from stored table numbers; when at least one
row matches, each returns the stored table number of the first matching
row. -/
theorem C6_amended (arrays pre post : List ArrayRow) (r : ArrayRow)
    (station : String) (sample_rate channel_number : Nat) :
    ((∀ x ∈ arrays, rowMatches station sample_rate channel_number x = false) →
      get_receiver_n arrays station sample_rate channel_number = arrays.length ∧
      get_response_n arrays station sample_rate channel_number = arrays.length) ∧
    ((∀ x ∈ pre, rowMatches station sample_rate channel_number x = false) →
      rowMatches station sample_rate channel_number r = true →
      get_receiver_n (pre ++ r :: post) station sample_rate channel_number =
          r.receiver_table_n_i ∧
      get_response_n (pre ++ r :: post) station sample_rate channel_number =
          r.response_table_n_i) := by
  constructor
  · intro hnone
    have hfind : arrays.find? (rowMatches station sample_rate channel_number) = none :=
      List.find?_eq_none.mpr fun x hx => by simp [hnone x hx]
    constructor <;> simp [get_receiver_n, get_response_n, hfind]
  · intro hpre hr
    have hfind := find?_append_cons (rowMatches station sample_rate channel_number)
      pre r post hpre hr
    constructor <;> simp [get_receiver_n, get_response_n, hfind]

/-- C6 witness: concrete instance of both halves of `C6_amended`. -/
theorem C6_amended_witness :
    (get_receiver_n [(⟨"A", 1, 1, 7, 8, "D"⟩ : ArrayRow)] "B" 1 1 = 1 ∧
      get_response_n [(⟨"A", 1, 1, 7, 8, "D"⟩ : ArrayRow)] "B" 1 1 = 1) ∧
    (get_receiver_n ([] ++ (⟨"A", 1, 1, 7, 8, "D"⟩ : ArrayRow) :: []) "A" 1 1 = 7 ∧
      get_response_n ([] ++ (⟨"A", 1, 1, 7, 8, "D"⟩ : ArrayRow) :: []) "A" 1 1 = 8) := by
  have h := C6_amended [(⟨"A", 1, 1, 7, 8, "D"⟩ : ArrayRow)] [] []
    (⟨"A", 1, 1, 7, 8, "D"⟩ : ArrayRow) "A" 1 1
  have h' := C6_amended [(⟨"A", 1, 1, 7, 8, "D"⟩ : ArrayRow)] [] []
    (⟨"A", 1, 1, 7, 8, "D"⟩ : ArrayRow) "B" 1 1
  exact ⟨h'.1 (by decide), h.2 (by simp) (by decide)⟩


/-! ### External linker: `update_external_reference`

The master's `/Experiment_g/Receivers_g` area holds one external-link node
per das group name; we model that area as an association list from node name
to link target.  `get_node(path).remove()` wrapped in `try/except` is the
tolerant removal; `create_external_link` raises if the node already exists
(swallowed by its own `try/except`, which only prints).  Python's
`str.split(sep)` and slice `[2:]` are `pySplit` and `pyDrop` below. -/

/-- Python `s.split(sep)` for a one-character separator (builds the current
field in reverse). -/
def pySplitAux (sep : Char) : List Char → List Char → List String
  | [], acc => [⟨acc.reverse⟩]
  | c :: rest, acc =>
    if c = sep then ⟨acc.reverse⟩ :: pySplitAux sep rest []
    else pySplitAux sep rest (c :: acc)

/-- Python `s.split(sep)`. -/
def pySplit (s : String) (sep : Char) : List String := pySplitAux sep s.data []

/-- Python slice `s[n:]` (by characters). -/
def pyDrop (s : String) (n : Nat) : String := ⟨s.data.drop n⟩

/-- First-match lookup of a node name. -/
def lookupL : List (String × String) → String → Option String
  | [], _ => none
  | (k, v) :: rest, name => if k = name then some v else lookupL rest name

/-- Remove the node with the given name (first occurrence). -/
def removeL : List (String × String) → String → List (String × String)
  | [], _ => []
  | (k, v) :: rest, name => if k = name then rest else (k, v) :: removeL rest name

/-- `try: group_node = self.ph5_obj.ph5.get_node(external_dir); group_node.remove()
except Exception: pass` — a missing node is success, not failure. -/
def get_node_remove (links : List (String × String)) (name : String) :
    List (String × String) :=
  match lookupL links name with
  | some _ => removeL links name
  | none => links

/-- `create_external_link('/Experiment_g/Receivers_g', external_group, target)`:
creating over an existing node raises, and the surrounding `try/except`
swallows the error (prints only), leaving the store unchanged. -/
def create_external_link (links : List (String × String)) (name target : String) :
    List (String × String) :=
  match lookupL links name with
  | some _ => links
  | none => links ++ [(name, target)]

/-- The two fields of the time-index entry that
`update_external_reference` reads. -/
structure ExtRefEntry where
  external_file_name_s : String
  hdf5_path_s : String
  deriving DecidableEq, Repr

/-- Embedding of `generic2ph5.update_external_reference`:
`external_fn = entry['external_file_name_s'][2:]`,
`external_dir = entry['hdf5_path_s']`, `target = fn:dir`,
`external_group = external_dir.split('/')[3]`, tolerant remove, then
re-create.  `none` models the uncaught `IndexError` when `hdf5_path_s` has
fewer than four `/`-separated components (it never does for entries built by
`make_time_index_entry`). -/
def update_external_reference (links : List (String × String)) (entry : ExtRefEntry) :
    Option (List (String × String)) :=
  match (pySplit entry.hdf5_path_s '/').get? 3 with
  | none => none
  | some external_group =>
    some (create_external_link (get_node_remove links external_group) external_group
      (pyDrop entry.external_file_name_s 2 ++ ":" ++ entry.hdf5_path_s))

/-- Number of link nodes with the given name. -/
def countKey (links : List (String × String)) (name : String) : Nat :=
  (links.filter (fun p => p.1 == name)).length

theorem lookupL_eq_none_of_not_mem (links : List (String × String)) (name : String)
    (h : name ∉ links.map Prod.fst) : lookupL links name = none := by
  induction links with
  | nil => rfl
  | cons p rest ih =>
    obtain ⟨k, v⟩ := p
    simp only [List.map_cons, List.mem_cons, not_or] at h
    have hk : ¬ k = name := fun hkn => h.1 hkn.symm
    simp only [lookupL, if_neg hk]
    exact ih h.2

theorem not_mem_keys_of_lookupL_none (links : List (String × String)) (name : String)
    (h : lookupL links name = none) : name ∉ links.map Prod.fst := by
  induction links with
  | nil => simp
  | cons p rest ih =>
    obtain ⟨k, v⟩ := p
    by_cases hk : k = name
    · simp [lookupL, hk] at h
    · simp only [lookupL, if_neg hk] at h
      simp only [List.map_cons, List.mem_cons, not_or]
      exact ⟨fun hnk => hk hnk.symm, ih h⟩

theorem countKey_eq_zero_of_lookup_none (links : List (String × String)) (name : String)
    (h : lookupL links name = none) : countKey links name = 0 := by
  induction links with
  | nil => rfl
  | cons p rest ih =>
    obtain ⟨k, v⟩ := p
    by_cases hk : k = name
    · simp [lookupL, hk] at h
    · simp only [lookupL, if_neg hk] at h
      simpa [countKey, List.filter_cons, hk] using ih h

theorem keys_removeL_subset (links : List (String × String)) (name k : String)
    (h : k ∈ (removeL links name).map Prod.fst) : k ∈ links.map Prod.fst := by
  induction links with
  | nil => simp [removeL] at h
  | cons p rest ih =>
    obtain ⟨k', v'⟩ := p
    by_cases hk' : k' = name
    · simp only [removeL, if_pos hk'] at h
      exact List.mem_cons_of_mem _ h
    · simp only [removeL, if_neg hk', List.map_cons, List.mem_cons] at h
      rcases h with h | h
      · exact List.mem_cons.mpr (Or.inl h)
      · exact List.mem_cons_of_mem _ (ih h)

theorem removeL_nodup_keys (links : List (String × String)) (name : String)
    (h : (links.map Prod.fst).Nodup) :
    ((removeL links name).map Prod.fst).Nodup := by
  induction links with
  | nil => exact h
  | cons p rest ih =>
    obtain ⟨k, v⟩ := p
    simp only [List.map_cons, List.nodup_cons] at h
    by_cases hk : k = name
    · simpa [removeL, hk] using h.2
    · simp only [removeL, if_neg hk, List.map_cons, List.nodup_cons]
      exact ⟨fun hmem => h.1 (keys_removeL_subset rest name k hmem), ih h.2⟩

theorem lookupL_removeL_of_nodup (links : List (String × String)) (name : String)
    (h : (links.map Prod.fst).Nodup) : lookupL (removeL links name) name = none := by
  induction links with
  | nil => rfl
  | cons p rest ih =>
    obtain ⟨k, v⟩ := p
    simp only [List.map_cons, List.nodup_cons] at h
    by_cases hk : k = name
    · simp only [removeL, if_pos hk]
      exact lookupL_eq_none_of_not_mem rest name (hk ▸ h.1)
    · simp only [removeL, if_neg hk, lookupL, if_neg hk]
      exact ih h.2

theorem lookupL_append_singleton (links : List (String × String)) (name target : String)
    (h : lookupL links name = none) :
    lookupL (links ++ [(name, target)]) name = some target := by
  induction links with
  | nil => simp [lookupL]
  | cons p rest ih =>
    obtain ⟨k, v⟩ := p
    by_cases hk : k = name
    · simp [lookupL, hk] at h
    · simp only [lookupL, if_neg hk] at h
      simpa [lookupL, hk] using ih h

theorem countKey_append_singleton (links : List (String × String)) (name target : String) :
    countKey (links ++ [(name, target)]) name = countKey links name + 1 := by
  simp [countKey, List.filter_append]

theorem nodup_keys_append_singleton (links : List (String × String)) (name target : String)
    (h : (links.map Prod.fst).Nodup) (hn : lookupL links name = none) :
    (((links ++ [(name, target)]).map Prod.fst)).Nodup := by
  rw [List.map_append]
  refine List.Nodup.append h (by simp) ?_
  intro k hk hk'
  simp only [List.map_cons, List.map_nil, List.mem_singleton] at hk'
  subst hk'
  exact not_mem_keys_of_lookupL_none links k hn hk

/-- One `relink` from a nodup-keyed store: it succeeds and appends the fresh
link after the (tolerant) removal, which leaves no link named `g` behind. -/
theorem relink_once (links : List (String × String)) (entry : ExtRefEntry)
    (g : String) (hnodup : (links.map Prod.fst).Nodup)
    (hg : (pySplit entry.hdf5_path_s '/').get? 3 = some g) :
    update_external_reference links entry =
      some (get_node_remove links g ++
        [(g, pyDrop entry.external_file_name_s 2 ++ ":" ++ entry.hdf5_path_s)]) ∧
    lookupL (get_node_remove links g) g = none ∧
    ((get_node_remove links g).map Prod.fst).Nodup := by
  have hrem : lookupL (get_node_remove links g) g = none := by
    unfold get_node_remove
    cases hl : lookupL links g with
    | none => exact hl
    | some v => exact lookupL_removeL_of_nodup links g hnodup
  have hremnd : ((get_node_remove links g).map Prod.fst).Nodup := by
    unfold get_node_remove
    cases lookupL links g with
    | none => exact hnodup
    | some v => exact removeL_nodup_keys links g hnodup
  refine ⟨?_, hrem, hremnd⟩
  unfold update_external_reference
  rw [hg]
  simp only [create_external_link, hrem]

/-!  ## Claim C7  -/

/-- C7, confirmed.  From any master link area with (pytables-guaranteed)
distinct node names, calling `update_external_reference` twice in a row with
the same index entry succeeds both times and yields a store with exactly one
link node for that instrument's group, pointing at
`<shard filename>:<in-shard group path>`; already the first call — in
particular one on a store with no prior link for the group, whose removal
step is a tolerated no-op, not a failure — establishes the same state. -/
theorem C7_relink_idempotent (links : List (String × String)) (entry : ExtRefEntry)
    (g : String) (hnodup : (links.map Prod.fst).Nodup)
    (hg : (pySplit entry.hdf5_path_s '/').get? 3 = some g) :
    ∃ l1 l2,
      update_external_reference links entry = some l1 ∧
      update_external_reference l1 entry = some l2 ∧
      countKey l2 g = 1 ∧
      lookupL l2 g =
        some (pyDrop entry.external_file_name_s 2 ++ ":" ++ entry.hdf5_path_s) ∧
      countKey l1 g = 1 ∧
      lookupL l1 g =
        some (pyDrop entry.external_file_name_s 2 ++ ":" ++ entry.hdf5_path_s) := by
  obtain ⟨h1, hrem1, hnd1⟩ := relink_once links entry g hnodup hg
  have hl1nodup : (((get_node_remove links g ++
      [(g, pyDrop entry.external_file_name_s 2 ++ ":" ++ entry.hdf5_path_s)]).map
        Prod.fst)).Nodup :=
    nodup_keys_append_singleton _ g _ hnd1 hrem1
  obtain ⟨h2, hrem2, _⟩ := relink_once _ entry g hl1nodup hg
  refine ⟨_, _, h1, h2, ?_, ?_, ?_, ?_⟩
  · rw [countKey_append_singleton, countKey_eq_zero_of_lookup_none _ g hrem2]
  · exact lookupL_append_singleton _ g _ hrem2
  · rw [countKey_append_singleton, countKey_eq_zero_of_lookup_none _ g hrem1]
  · exact lookupL_append_singleton _ g _ hrem1

/-- C7 witness: relinking das group `Das_g_MT01` twice into an empty master
link area ends with exactly one link, targeting
`miniPH5_00002.ph5:/Experiment_g/Receivers_g/Das_g_MT01`. -/
theorem C7_relink_idempotent_witness :
    ∃ l1 l2,
      update_external_reference []
        ⟨"./miniPH5_00002.ph5", "/Experiment_g/Receivers_g/Das_g_MT01"⟩ = some l1 ∧
      update_external_reference l1
        ⟨"./miniPH5_00002.ph5", "/Experiment_g/Receivers_g/Das_g_MT01"⟩ = some l2 ∧
      countKey l2 "Das_g_MT01" = 1 ∧
      lookupL l2 "Das_g_MT01" =
        some (pyDrop "./miniPH5_00002.ph5" 2 ++ ":" ++
          "/Experiment_g/Receivers_g/Das_g_MT01") ∧
      countKey l1 "Das_g_MT01" = 1 ∧
      lookupL l1 "Das_g_MT01" =
        some (pyDrop "./miniPH5_00002.ph5" 2 ++ ":" ++
          "/Experiment_g/Receivers_g/Das_g_MT01") :=
  C7_relink_idempotent []
    ⟨"./miniPH5_00002.ph5", "/Experiment_g/Receivers_g/Das_g_MT01"⟩
    "Das_g_MT01" (by simp) (by decide)

/-! ### The ingest coordinator: `MTtoPH5.single_ts_to_ph5` / `MTtoPH5.to_ph5`

The store (master file plus mini files) is explicit state.  The external
`ph5.core` storage primitives (`newarray`, `populateDas_t`,
`populateIndex_t`, `populateReceiver_t`, `columns.populate`) are fallible
collaborators: a `PrimEnv` records which of them succeed; a failed primitive
raises, which aborts the remaining steps of the current recording with the
side effects performed so far kept (no rollback).  Wall-clock values
(`datetime.utcnow()` in `make_index_t_entry`) are supplied by a `Config`.
Receiver_t rows carry only floats/strings never read back by the core, so
that table is modeled by its row count. -/

/-- The fields of an `MTTS` time-series object read by the coordinator. -/
structure TSObj where
  station : String
  data_logger : String
  sampling_rate : Nat
  channel_number : Nat
  n_samples : Nat
  start_time_utc : String
  start_time_epoch_sec : Int
  start_micro : Nat
  stop_time_utc : String
  stop_time_epoch_sec : Int
  stop_micro : Nat
  fn : String
  deriving DecidableEq, Repr

/-- A master `Index_t` row as built by `MTtoPH5.make_index_t_entry` and
completed by `single_ts_to_ph5` (field names flatten the `a/b_s` dict keys). -/
structure IndexTEntry where
  start_time_ascii_s : String
  start_time_epoch_l : Int
  start_time_micro_seconds_i : Nat
  end_time_ascii_s : String
  end_time_epoch_l : Int
  end_time_micro_seconds_i : Nat
  time_stamp_ascii_s : String
  time_stamp_epoch_l : Int
  time_stamp_micro_seconds_i : Nat
  serial_number_s : String
  external_file_name_s : String
  hdf5_path_s : String
  deriving DecidableEq, Repr

/-- A `Das_t` row as built by `MTtoPH5.make_das_entry`; the three fields the
coordinator assigns later (`receiver_table_n_i`, `response_table_n_i`,
`array_name_data_a`) are `Option` (dict keys not yet present). -/
structure DasTEntry where
  time_ascii_s : String
  time_epoch_l : Int
  time_micro_seconds_i : Nat
  sample_rate_i : Nat
  sample_rate_multiplier_i : Nat
  channel_number_i : Nat
  sample_count_i : Nat
  raw_file_name_s : String
  receiver_table_n_i : Option Nat
  response_table_n_i : Option Nat
  array_name_data_a : Option String
  deriving DecidableEq, Repr

/-- One das group inside a container file: the data arrays it holds
(`find_trace_ref` probes these names; `newarray` appends) and its `Das_t`
rows (`populateDas_t` appends). -/
structure DasGroup where
  arrayNames : List String
  rows : List DasTEntry
  deriving DecidableEq, Repr

/-- One mini (shard) file: number, das groups keyed by serial, and its file
size in bytes (`os.path.getsize`; array writes grow it — we count one byte
per sample as an abstract proxy, which the claims do not depend on). -/
structure MiniFile where
  num : Nat
  groups : List (String × DasGroup)
  size : Nat
  deriving DecidableEq, Repr

/-- The whole store: master file plus mini files plus the set of open mini
handles (`ph5open` adds, `ph5close` removes). -/
structure Store where
  minis : List MiniFile
  openHandles : List Nat
  masterGroups : List (String × DasGroup)
  indexRows : List IndexTEntry
  receiverRowCount : Nat
  arrayRows : List ArrayRow
  deriving DecidableEq, Repr

/-- Success flags for the external storage primitives: `false` means that
call raises (resource error in the storage runtime). -/
structure PrimEnv where
  newarray_ok : Bool
  populateDas_mini_ok : Bool
  populateDas_master_ok : Bool
  populateIndex_ok : Bool
  populateReceiver_ok : Bool
  populateArray_ok : Bool
  deriving DecidableEq, Repr

/-- Ambient inputs: the object attribute `self.mini_size_max` and the wall
clock read by `make_index_t_entry` (`datetime.utcnow()`). -/
structure Config where
  mini_size_max : Nat
  now_iso : String
  now_epoch : Int
  now_micro : Nat
  deriving DecidableEq, Repr

/-- `MTtoPH5.make_index_t_entry` (`external_file_name_s` starts empty). -/
def make_index_t_entry (cfg : Config) (ts : TSObj) : IndexTEntry :=
  { start_time_ascii_s := ts.start_time_utc
    start_time_epoch_l := ts.start_time_epoch_sec
    start_time_micro_seconds_i := ts.start_micro
    end_time_ascii_s := ts.stop_time_utc
    end_time_epoch_l := ts.stop_time_epoch_sec
    end_time_micro_seconds_i := ts.stop_micro
    time_stamp_ascii_s := cfg.now_iso
    time_stamp_epoch_l := cfg.now_epoch
    time_stamp_micro_seconds_i := cfg.now_micro
    serial_number_s := ts.data_logger
    external_file_name_s := ""
    hdf5_path_s := "" }

/-- `MTtoPH5.make_das_entry`. -/
def make_das_entry (ts : TSObj) : DasTEntry :=
  { time_ascii_s := ts.start_time_utc
    time_epoch_l := ts.start_time_epoch_sec
    time_micro_seconds_i := ts.start_micro
    sample_rate_i := ts.sampling_rate
    sample_rate_multiplier_i := 1
    channel_number_i := ts.channel_number
    sample_count_i := ts.n_samples
    raw_file_name_s := ts.fn
    receiver_table_n_i := none
    response_table_n_i := none
    array_name_data_a := none }

/-- `MTtoPH5.make_array_entry`, restricted to the fields `ArrayRow` models
(`receiver_table_n_i` / `response_table_n_i` are resolved against the current
master array rows). -/
def make_array_entry (arrays : List ArrayRow) (ts : TSObj) : ArrayRow :=
  { id_s := ts.station
    sample_rate_i := ts.sampling_rate
    channel_number_i := ts.channel_number
    receiver_table_n_i := get_receiver_n arrays ts.station ts.sampling_rate ts.channel_number
    response_table_n_i := get_response_n arrays ts.station ts.sampling_rate ts.channel_number
    das_serial_number_s := ts.data_logger }

/-- Association-list lookup of a das group by serial. -/
def lookupGroup : List (String × DasGroup) → String → Option DasGroup
  | [], _ => none
  | (k, g) :: rest, serial => if k = serial then some g else lookupGroup rest serial

/-- `get_current_das` / `add_station_mini`'s group step: get the das group,
creating it on first use (`getdas_g` / `newdas`). -/
def ensure_group (groups : List (String × DasGroup)) (serial : String) :
    List (String × DasGroup) :=
  match lookupGroup groups serial with
  | some _ => groups
  | none => groups ++ [(serial, { arrayNames := [], rows := [] })]

/-- Apply `f` to the das group with the given serial. -/
def modifyGroup (groups : List (String × DasGroup)) (serial : String)
    (f : DasGroup → DasGroup) : List (String × DasGroup) :=
  groups.map fun p => if p.1 = serial then (p.1, f p.2) else p

/-- Apply `f` to the mini file with the given number. -/
def updateMini (st : Store) (num : Nat) (f : MiniFile → MiniFile) : Store :=
  { st with minis := st.minis.map fun m => if m.num = num then f m else m }

/-- The array names currently in the das group of the given mini
(`find_trace_ref`'s search space). -/
def miniGroupArrays (st : Store) (num : Nat) (serial : String) : List String :=
  match st.minis.find? (fun m => m.num == num) with
  | some m =>
    match lookupGroup m.groups serial with
    | some g => g.arrayNames
    | none => []
  | none => []

/-- `generic2ph5.open_mini`: `ph5open(True)` creates the file when missing
and opens a handle; `initgroup` readies it; returns the handle (here: the
number on the open list) and the filename `miniPH5_{0:05}.ph5`. -/
def open_mini (st : Store) (num : Nat) : Store × String :=
  ({ st with
      minis :=
        if (st.minis.find? (fun m => m.num == num)).isSome then st.minis
        else st.minis ++ [{ num := num, groups := [], size := 0 }]
      openHandles := num :: st.openHandles },
    "miniPH5_" ++ padZeros 5 num ++ ".ph5")

/-- `das_station_map` derived from the master's array rows, with the
de-duplication loop (`if station not in das_station_map`). -/
def store_das_station_map (st : Store) : List DasStationEntry :=
  (st.arrayRows.map fun r =>
      ({ serial := r.das_serial_number_s, station := r.id_s } : DasStationEntry)).foldl
    (fun acc e => if e ∈ acc then acc else acc ++ [e]) []

/-- `mini_map` derived from the store's mini files: number, hosted das
serials (`alldas_g` group names), byte size. -/
def store_mini_map (st : Store) : List MiniEntry :=
  st.minis.map fun m =>
    { num := m.num, das_list := m.groups.map Prod.fst, size := m.size }

/-- Embedding of `MTtoPH5.single_ts_to_ph5(ts_obj, count)`, step for step:
build the four entry dicts; assign `receiver_table_n_i` and
`response_table_n_i := count` into the das entry; choose and open the mini;
ensure its das group; probe for a free `Data_a_NNNNN` name; `newarray`;
fill the index entry's external reference; populate `Das_t` in mini and
master; populate `Index_t` and `Receiver_t` in the master; populate the
sorts array table; close the mini handle; return the (advanced) counter.
A `false` primitive flag raises at exactly that step (`Except.error`),
keeping all prior state changes. -/
def single_ts_to_ph5 (env : PrimEnv) (cfg : Config) (st : Store) (ts : TSObj)
    (count : Nat) : Store × Except String Nat :=
  let index_t := make_index_t_entry cfg ts
  let das_t := make_das_entry ts
  let array_t := make_array_entry st.arrayRows ts
  let das_t :=
    { das_t with
      receiver_table_n_i :=
        some (get_receiver_n st.arrayRows ts.station ts.sampling_rate ts.channel_number)
      response_table_n_i := some count }
  let current_mini :=
    get_current_mini_num (store_das_station_map st) (store_mini_map st)
      ts.data_logger 1 cfg.mini_size_max
  let (st, mini_name) := open_mini st current_mini
  let st := updateMini st current_mini fun m =>
    { m with groups := ensure_group m.groups ts.data_logger }
  let count := next_free_count (miniGroupArrays st current_mini ts.data_logger) count
  let das_t := { das_t with array_name_data_a := some (data_array_name count) }
  if !env.newarray_ok then (st, .error "newarray") else
  let st := updateMini st current_mini fun m =>
    { m with
      groups := modifyGroup m.groups ts.data_logger fun g =>
        { g with arrayNames := g.arrayNames ++ [data_array_name count] }
      size := m.size + ts.n_samples }
  let index_t :=
    { index_t with
      external_file_name_s := "./" ++ mini_name
      hdf5_path_s := "/Experiment_g/Receivers_g/Das_g_" ++ ts.data_logger }
  if !env.populateDas_mini_ok then (st, .error "populateDas_t mini") else
  let st := updateMini st current_mini fun m =>
    { m with groups := modifyGroup m.groups ts.data_logger fun g =>
        { g with rows := g.rows ++ [das_t] } }
  let st := { st with masterGroups := ensure_group st.masterGroups ts.data_logger }
  if !env.populateDas_master_ok then (st, .error "populateDas_t master") else
  let st :=
    { st with masterGroups := modifyGroup st.masterGroups ts.data_logger fun g =>
        { g with rows := g.rows ++ [das_t] } }
  if !env.populateIndex_ok then (st, .error "populateIndex_t") else
  let st := { st with indexRows := st.indexRows ++ [index_t] }
  if !env.populateReceiver_ok then (st, .error "populateReceiver_t") else
  let st := { st with receiverRowCount := st.receiverRowCount + 1 }
  if !env.populateArray_ok then (st, .error "columns.populate") else
  let st := { st with arrayRows := st.arrayRows ++ [array_t] }
  let st := { st with openHandles := st.openHandles.erase current_mini }
  (st, .ok count)

/-- `load_ts_obj`'s outcome as a tagged variant: one `MTTS` object, or the
list of five channel objects a NIMS file yields. -/
inductive TSInput where
  | single (ts : TSObj)
  | many (l : List TSObj)
  deriving DecidableEq, Repr

/-- The inner `for single_ts_obj in ts_obj:` loop of `to_ph5`, which *does*
thread the returned counter. -/
def to_ph5_inner (env : PrimEnv) (cfg : Config) :
    Store → Nat → List TSObj → Store × Except String Nat
  | st, count, [] => (st, .ok count)
  | st, count, ts :: rest =>
    match single_ts_to_ph5 env cfg st ts count with
    | (st', .ok c) => to_ph5_inner env cfg st' c rest
    | (st', .error e) => (st', .error e)

/-- The `for count, fn in enumerate(ts_list, 1):` loop of `to_ph5`: at each
iteration `enumerate` rebinds `count` to the recording's 1-based index,
discarding the counter value returned by the previous iteration's
`single_ts_to_ph5` call. -/
def to_ph5_loop (env : PrimEnv) (cfg : Config) :
    Store → Nat → List TSInput → Store × Except String String
  | st, _, [] => (st, .ok "done")
  | st, i, inp :: rest =>
    let result :=
      match inp with
      | .single ts => single_ts_to_ph5 env cfg st ts i
      | .many l => to_ph5_inner env cfg st i l
    match result with
    | (st', .ok _) => to_ph5_loop env cfg st' (i + 1) rest
    | (st', .error e) => (st', .error e)

/-- Embedding of `MTtoPH5.to_ph5(ts_list)`: runs the per-recording state
machine sequentially and returns the string `"done"`.  (The one-time
`newArraySort('Array_t_001')` initialisation is a no-op on this table
model.)  A raising step propagates out of the loop with the state reached
so far. -/
def to_ph5 (env : PrimEnv) (cfg : Config) (st : Store) (ts_list : List TSInput) :
    Store × Except String String :=
  to_ph5_loop env cfg st 1 ts_list

/-- Total number of recordings in a batch (a NIMS input carries five). -/
def recordingCount : List TSInput → Nat
  | [] => 0
  | .single _ :: rest => 1 + recordingCount rest
  | .many l :: rest => l.length + recordingCount rest

set_option maxHeartbeats 1600000

/-- On a successful run, `single_ts_to_ph5` closes the mini handle it opened
(net: the open-handle list is unchanged) and appends exactly one row to the
master index table. -/
theorem single_ts_to_ph5_success_state (env : PrimEnv) (cfg : Config) (st : Store)
    (ts : TSObj) (count c' : Nat)
    (h : (single_ts_to_ph5 env cfg st ts count).2 = .ok c') :
    (single_ts_to_ph5 env cfg st ts count).1.openHandles = st.openHandles ∧
    ∃ e, (single_ts_to_ph5 env cfg st ts count).1.indexRows = st.indexRows ++ [e] := by
  by_cases h1 : env.newarray_ok
  case neg =>
    rw [Bool.not_eq_true] at h1
    exfalso
    simp [single_ts_to_ph5, open_mini, h1] at h
  by_cases h2 : env.populateDas_mini_ok
  case neg =>
    rw [Bool.not_eq_true] at h2
    exfalso
    simp [single_ts_to_ph5, open_mini, h1, h2] at h
  by_cases h3 : env.populateDas_master_ok
  case neg =>
    rw [Bool.not_eq_true] at h3
    exfalso
    simp [single_ts_to_ph5, open_mini, h1, h2, h3] at h
  by_cases h4 : env.populateIndex_ok
  case neg =>
    rw [Bool.not_eq_true] at h4
    exfalso
    simp [single_ts_to_ph5, open_mini, h1, h2, h3, h4] at h
  by_cases h5 : env.populateReceiver_ok
  case neg =>
    rw [Bool.not_eq_true] at h5
    exfalso
    simp [single_ts_to_ph5, open_mini, h1, h2, h3, h4, h5] at h
  by_cases h6 : env.populateArray_ok
  case neg =>
    rw [Bool.not_eq_true] at h6
    exfalso
    simp [single_ts_to_ph5, open_mini, h1, h2, h3, h4, h5, h6] at h
  constructor
  · simp [single_ts_to_ph5, open_mini, updateMini, h1, h2, h3, h4, h5, h6]
  · simp [single_ts_to_ph5, open_mini, updateMini, h1, h2, h3, h4, h5, h6]

/-- The inner (counter-threading) loop: on success the open-handle list is
unchanged and one index row is appended per recording. -/
theorem to_ph5_inner_success (env : PrimEnv) (cfg : Config) (l : List TSObj) :
    ∀ (st : Store) (count c' : Nat),
      (to_ph5_inner env cfg st count l).2 = .ok c' →
      (to_ph5_inner env cfg st count l).1.openHandles = st.openHandles ∧
      ∃ es, (to_ph5_inner env cfg st count l).1.indexRows = st.indexRows ++ es ∧
        es.length = l.length := by
  induction l with
  | nil =>
    intro st count c' _
    exact ⟨rfl, [], by simp [to_ph5_inner], rfl⟩
  | cons ts rest ih =>
    intro st count c' h
    rcases hsing : single_ts_to_ph5 env cfg st ts count with ⟨st', r⟩
    cases r with
    | error e =>
      simp only [to_ph5_inner] at h
      rw [hsing] at h
      exact absurd h (by simp)
    | ok c =>
      simp only [to_ph5_inner] at h ⊢
      rw [hsing] at h ⊢
      have h' : (to_ph5_inner env cfg st' c rest).2 = .ok c' := h
      obtain ⟨hh, es, hes, hlen⟩ := ih st' c c' h'
      obtain ⟨hh1, e, he⟩ := single_ts_to_ph5_success_state env cfg st ts count c
        (by rw [hsing])
      rw [hsing] at hh1 he
      have hh1' : st'.openHandles = st.openHandles := hh1
      have he' : st'.indexRows = st.indexRows ++ [e] := he
      refine ⟨?_, e :: es, ?_, ?_⟩
      · show (to_ph5_inner env cfg st' c rest).1.openHandles = st.openHandles
        rw [hh, hh1']
      · show (to_ph5_inner env cfg st' c rest).1.indexRows = st.indexRows ++ e :: es
        rw [hes, he']
        simp
      · show (e :: es).length = (ts :: rest).length
        simp [hlen]

/-- The outer `enumerate` loop of `to_ph5`: on success the returned value is
the constant string `"done"` and one index row was appended per recording. -/
theorem to_ph5_loop_success (env : PrimEnv) (cfg : Config) (l : List TSInput) :
    ∀ (st : Store) (i : Nat) (s : String),
      (to_ph5_loop env cfg st i l).2 = .ok s →
      s = "done" ∧
      ∃ es, (to_ph5_loop env cfg st i l).1.indexRows = st.indexRows ++ es ∧
        es.length = recordingCount l := by
  induction l with
  | nil =>
    intro st i s h
    have h' : Except.ok (ε := String) "done" = Except.ok s := h
    obtain rfl := (Except.ok.inj h').symm
    exact ⟨rfl, [], by simp [to_ph5_loop], rfl⟩
  | cons inp rest ih =>
    intro st i s h
    cases inp with
    | single ts =>
      rcases hsing : single_ts_to_ph5 env cfg st ts i with ⟨st', r⟩
      cases r with
      | error e =>
        simp only [to_ph5_loop] at h
        rw [hsing] at h
        exact absurd h (by simp)
      | ok c =>
        simp only [to_ph5_loop] at h ⊢
        rw [hsing] at h ⊢
        have h' : (to_ph5_loop env cfg st' (i + 1) rest).2 = .ok s := h
        obtain ⟨hdone, es, hes, hlen⟩ := ih st' (i + 1) s h'
        obtain ⟨_, e, he⟩ := single_ts_to_ph5_success_state env cfg st ts i c
          (by rw [hsing])
        rw [hsing] at he
        have he' : st'.indexRows = st.indexRows ++ [e] := he
        refine ⟨hdone, e :: es, ?_, ?_⟩
        · show (to_ph5_loop env cfg st' (i + 1) rest).1.indexRows =
            st.indexRows ++ e :: es
          rw [hes, he']
          simp
        · show (e :: es).length = recordingCount (.single ts :: rest)
          simp [recordingCount, hlen, Nat.add_comm]
    | many lts =>
      rcases hin : to_ph5_inner env cfg st i lts with ⟨st', r⟩
      cases r with
      | error e =>
        simp only [to_ph5_loop] at h
        rw [hin] at h
        exact absurd h (by simp)
      | ok c =>
        simp only [to_ph5_loop] at h ⊢
        rw [hin] at h ⊢
        have h' : (to_ph5_loop env cfg st' (i + 1) rest).2 = .ok s := h
        obtain ⟨hdone, es, hes, hlen⟩ := ih st' (i + 1) s h'
        obtain ⟨_, es0, he0, hlen0⟩ := to_ph5_inner_success env cfg lts st i c
          (by rw [hin])
        rw [hin] at he0
        have he0' : st'.indexRows = st.indexRows ++ es0 := he0
        refine ⟨hdone, es0 ++ es, ?_, ?_⟩
        · show (to_ph5_loop env cfg st' (i + 1) rest).1.indexRows =
            st.indexRows ++ (es0 ++ es)
          rw [hes, he0']
          simp
        · show (es0 ++ es).length = recordingCount (.many lts :: rest)
          simp [recordingCount, hlen, hlen0]

/-! ### Concrete fixtures for the coordinator claims -/

/-- All storage primitives succeed. -/
def envOK : PrimEnv := ⟨true, true, true, true, true, true⟩

/-- The `newarray` call raises (e.g. disk full); everything else would work. -/
def envNewarrayFail : PrimEnv := ⟨false, true, true, true, true, true⟩

/-- Default ceiling, fixed wall clock. -/
def cfg0 : Config := ⟨default_mini_size_max, "2020-01-02T03:04:05", 1577934245, 0⟩

/-- A recording from data logger `"DL"`, channel 1. -/
def tsA : TSObj := ⟨"ST01", "DL", 256, 1, 100, "sA", 0, 0, "eA", 1, 0, "a.z3d"⟩

/-- A second recording from the same logger, channel 2. -/
def tsB : TSObj := ⟨"ST01", "DL", 256, 2, 100, "sB", 0, 0, "eB", 1, 0, "b.z3d"⟩

/-- A store with one mini file (number 1, far below the ceiling) whose
`"DL"` das group already holds `Data_a_00001` … `Data_a_00006`. -/
def st6 : Store :=
  ⟨[⟨1, [("DL", ⟨["Data_a_00001", "Data_a_00002", "Data_a_00003", "Data_a_00004",
      "Data_a_00005", "Data_a_00006"], []⟩)], 0⟩], [], [], [], 0, []⟩

/-!  ## Claim C3  -/

/-- C3, code bug.  In a batch of two recordings, the first one's processing
probes past the six existing names and returns counter 7 — but the second
recording is processed with counter 2, because `for count, fn in
enumerate(ts_list, 1):` rebinds `count` to the recording's index at each
iteration, discarding the value returned by
`count = self.single_ts_to_ph5(ts_obj, count)`.  The counter actually used is
observable in the store: `single_ts_to_ph5` writes it into the das row as
`response_table_n_i`, and the second row holds 2, not 7. -/
theorem C3_code_eval :
    (single_ts_to_ph5 envOK cfg0 st6 tsA 1).2 = .ok 7 ∧
    ((lookupGroup (to_ph5 envOK cfg0 st6 [.single tsA, .single tsB]).1.masterGroups
        "DL").map fun g => g.rows.map (fun r => r.response_table_n_i)) =
      some [some 1, some 2] ∧
    (2 : Nat) ≠ 7 := by
  refine ⟨rfl, rfl, by decide⟩

/-!  ## Claim C5  -/

/-- C5, counterexample.  `to_ph5` returns the same bare value `"done"` for an
empty batch and for a one-recording batch, although the two runs create 0
resp. 1 index entries — so no function of the return value can recover the
sequence of created IndexEntries, refuting the claim that the result contains
them (it also carries no failed-recording index: errors propagate as
exceptions). -/
theorem C5_counterexample :
    (to_ph5 envOK cfg0 st6 []).2 = (to_ph5 envOK cfg0 st6 [.single tsA]).2 ∧
    (to_ph5 envOK cfg0 st6 []).1.indexRows.length = 0 ∧
    (to_ph5 envOK cfg0 st6 [.single tsA]).1.indexRows.length = 1 ∧
    ¬ ∃ f : Except String String → List IndexTEntry,
        f (to_ph5 envOK cfg0 st6 []).2 = (to_ph5 envOK cfg0 st6 []).1.indexRows ∧
        f (to_ph5 envOK cfg0 st6 [.single tsA]).2 =
          (to_ph5 envOK cfg0 st6 [.single tsA]).1.indexRows := by
  refine ⟨rfl, rfl, rfl, ?_⟩
  rintro ⟨f, hf1, hf2⟩
  have heq : (to_ph5 envOK cfg0 st6 []).2 = (to_ph5 envOK cfg0 st6 [.single tsA]).2 :=
    rfl
  rw [heq] at hf1
  rw [hf1] at hf2
  have hlen := congrArg List.length hf2
  rw [show (to_ph5 envOK cfg0 st6 []).1.indexRows.length = 0 from rfl,
    show (to_ph5 envOK cfg0 st6 [.single tsA]).1.indexRows.length = 1 from rfl] at hlen
  exact absurd hlen (by decide)

/-- C5, amended.  `to_ph5` returns only the constant status string `"done"`
on success; the IndexEntries created for the ingested recordings are not part
of the result but are appended (one per recording) to the master store's
index table as a side effect, and a failing recording raises an exception out
of `to_ph5` (no failure index is returned). -/
theorem C5_amended (env : PrimEnv) (cfg : Config) (st : Store) (l : List TSInput)
    (s : String) (h : (to_ph5 env cfg st l).2 = .ok s) :
    s = "done" ∧
    ∃ es, (to_ph5 env cfg st l).1.indexRows = st.indexRows ++ es ∧
      es.length = recordingCount l :=
  to_ph5_loop_success env cfg l st 1 s h

/-- C5 witness: the amended theorem at a concrete successful batch of one
recording. -/
theorem C5_amended_witness :
    "done" = "done" ∧
    ∃ es, (to_ph5 envOK cfg0 st6 [.single tsA]).1.indexRows = st6.indexRows ++ es ∧
      es.length = recordingCount [.single tsA] :=
  C5_amended envOK cfg0 st6 [.single tsA] "done" rfl

/-!  ## Claim C9  -/

/-- C9, counterexample.  When the array write (`newarray`) raises after the
mini handle was opened, `single_ts_to_ph5` propagates the exception without
reaching `mini_handle.ph5close()`: the handle on mini 1 is still open when
the coordinator returns, refuting "closed … including when a step performed
after the open fails". -/
theorem C9_counterexample :
    (single_ts_to_ph5 envNewarrayFail cfg0 st6 tsA 1).2 = .error "newarray" ∧
    (single_ts_to_ph5 envNewarrayFail cfg0 st6 tsA 1).1.openHandles = [1] ∧
    st6.openHandles = [] :=
  ⟨rfl, rfl, rfl⟩

/-- C9, amended.  On the success path `single_ts_to_ph5` does close the mini
handle it opened before returning (the open-handle list is restored); on a
failing step after the open the exception propagates and the handle is left
open (see the counterexample). -/
theorem C9_amended (env : PrimEnv) (cfg : Config) (st : Store) (ts : TSObj)
    (count c' : Nat) (h : (single_ts_to_ph5 env cfg st ts count).2 = .ok c') :
    (single_ts_to_ph5 env cfg st ts count).1.openHandles = st.openHandles :=
  (single_ts_to_ph5_success_state env cfg st ts count c' h).1

/-- C9 witness: the amended theorem at a concrete successful run. -/
theorem C9_amended_witness :
    (single_ts_to_ph5 envOK cfg0 st6 tsA 1).1.openHandles = st6.openHandles :=
  C9_amended envOK cfg0 st6 tsA 1 7 rfl

/-! ### Time handling: `check_timezone`, `read_date_time`, `validate_time_metadata`

Python `datetime` values are modeled by their wall-clock fields plus an
optional fixed offset (`tzinfo`): `none` is a naive datetime,
`some 0` is `datetime.timezone.utc`.  `dateutil.parser.parse` is modeled for
the ISO-8601 strings this code produces and consumes
(`YYYY-MM-DD[THH:MM:SS[.ffffff][+HH:MM]]`); `timestamp()` uses the proleptic
Gregorian civil-day algorithms; `int()` truncates toward zero;
`datetime.fromtimestamp` (no tz argument) yields a *naive local* wall clock,
so it takes the host's UTC offset `loc` as a parameter. -/

structure PyDateTime where
  year : Nat
  month : Nat
  day : Nat
  hour : Nat
  minute : Nat
  second : Nat
  microsecond : Nat
  tzOffset : Option Int
  deriving DecidableEq, Repr

/-- Embedding of `check_timezone(dt_object)`: `if dt_object.tzinfo is None or
dt_object.tzinfo != datetime.timezone.utc: return
dt_object.replace(tzinfo=datetime.timezone.utc)` — `replace` keeps every
wall-clock field and swaps only the tzinfo. -/
def check_timezone (dt : PyDateTime) : PyDateTime :=
  if dt.tzOffset = none ∨ dt.tzOffset ≠ some 0 then { dt with tzOffset := some 0 }
  else dt

/-- Days from the epoch 1970-01-01 of a proleptic-Gregorian civil date
(Hinnant's `days_from_civil`; `tdiv` is C-style truncating division, and all
divisions here act on non-negative operands). -/
def days_from_civil (y m d : Int) : Int :=
  let y := if m ≤ 2 then y - 1 else y
  let era := (if 0 ≤ y then y else y - 399).tdiv 400
  let yoe := y - era * 400
  let mp := (m + 9) % 12
  let doy := (153 * mp + 2).tdiv 5 + d - 1
  let doe := yoe * 365 + yoe.tdiv 4 - yoe.tdiv 100 + doy
  era * 146097 + doe - 719468

/-- Civil date of an epoch day number (Hinnant's `civil_from_days`). -/
def civil_from_days (z0 : Int) : Int × Int × Int :=
  let z := z0 + 719468
  let era := (if 0 ≤ z then z else z - 146096).tdiv 146097
  let doe := z - era * 146097
  let yoe := (doe - doe.tdiv 1460 + doe.tdiv 36524 - doe.tdiv 146096).tdiv 365
  let y := yoe + era * 400
  let doy := doe - (365 * yoe + yoe.tdiv 4 - yoe.tdiv 100)
  let mp := (5 * doy + 2).tdiv 153
  let d := doy - (153 * mp + 2).tdiv 5 + 1
  let m := mp + (if mp < 10 then 3 else -9)
  (if m ≤ 2 then y + 1 else y, m, d)

/-- Wall-clock seconds-from-epoch of the datetime's fields (no offset). -/
def wallSeconds (dt : PyDateTime) : Int :=
  days_from_civil dt.year dt.month dt.day * 86400 +
    dt.hour * 3600 + dt.minute * 60 + dt.second

/-- `dt.timestamp()` in microseconds: wall clock minus the UTC offset
(`getD 0` is irrelevant here — every datetime this code stamps has been
through `check_timezone`). -/
def timestampMicro (dt : PyDateTime) : Int :=
  wallSeconds dt * 1000000 + dt.microsecond - (dt.tzOffset.getD 0) * 1000000

/-- Python `int(x)` on the float `timestamp()`: truncation toward zero. -/
def int_of_float_secs (tsMicro : Int) : Int := tsMicro.tdiv 1000000

/-- `datetime.datetime.fromtimestamp(float(v))` for integral `v`: the *local*
(offset `loc`) wall clock of that instant, naive, zero microseconds. -/
def fromtimestamp (v loc : Int) : PyDateTime :=
  let t := v + loc
  let days := t.fdiv 86400
  let secs := t - days * 86400
  let c := civil_from_days days
  { year := c.1.toNat, month := c.2.1.toNat, day := c.2.2.toNat,
    hour := (secs.tdiv 3600).toNat, minute := ((secs % 3600).tdiv 60).toNat,
    second := (secs % 60).toNat, microsecond := 0, tzOffset := none }

/-- All characters are decimal digits (and there is at least one). -/
def allDigits (l : List Char) : Bool :=
  !l.isEmpty && l.all fun c => digitVal c < 10

/-- Python `sub in key` substring test. -/
def substr_in (sub s : String) : Bool :=
  (List.range (s.data.length + 1)).any fun i =>
    (s.data.drop i).take sub.data.length == sub.data

/-- The UTC-offset suffix of `datetime.isoformat()` (`+HH:MM`). -/
def offsetStr (o : Int) : String :=
  if 0 ≤ o then
    "+" ++ padZeros 2 (o.tdiv 3600).toNat ++ ":" ++ padZeros 2 ((o % 3600).tdiv 60).toNat
  else
    "-" ++ padZeros 2 ((-o).tdiv 3600).toNat ++ ":" ++
      padZeros 2 (((-o) % 3600).tdiv 60).toNat

/-- `dt.isoformat()`: microseconds are printed (6 digits) only when nonzero;
aware datetimes carry the offset suffix. -/
def isoformat (dt : PyDateTime) : String :=
  padZeros 4 dt.year ++ "-" ++ padZeros 2 dt.month ++ "-" ++ padZeros 2 dt.day ++ "T" ++
  padZeros 2 dt.hour ++ ":" ++ padZeros 2 dt.minute ++ ":" ++ padZeros 2 dt.second ++
  (if dt.microsecond == 0 then "" else "." ++ padZeros 6 dt.microsecond) ++
  (match dt.tzOffset with
   | none => ""
   | some o => offsetStr o)

/-- Parse a digit-only numeric field. -/
def parseNum (s : String) : Option Nat :=
  if allDigits s.data then some (digitsVal s.data) else none

/-- Parse `HH:MM:SS` with optional `.ffffff` (fraction digits beyond six are
truncated, shorter fractions are zero-extended, as in `dateutil`). -/
def parse_hms (main : String) : Option (Nat × Nat × Nat × Nat) :=
  match pySplit main ':' with
  | [hh, mm, rest] =>
    match pySplit rest '.' with
    | [ss] =>
      match parseNum hh, parseNum mm, parseNum ss with
      | some h, some mi, some s => some (h, mi, s, 0)
      | _, _, _ => none
    | [ss, frac] =>
      if allDigits frac.data then
        match parseNum hh, parseNum mm, parseNum ss with
        | some h, some mi, some s =>
          some (h, mi, s, digitsVal ((frac.data ++ List.replicate 6 '0').take 6))
        | _, _, _ => none
      else none
    | _ => none
  | _ => none

/-- Parse the time part with an optional `+HH:MM` offset suffix. -/
def parse_time_part (t : String) : Option (Nat × Nat × Nat × Nat × Option Int) :=
  match pySplit t '+' with
  | [main] => (parse_hms main).map fun q => (q.1, q.2.1, q.2.2.1, q.2.2.2, none)
  | [main, off] =>
    match pySplit off ':' with
    | [oh, om] =>
      match parseNum oh, parseNum om, parse_hms main with
      | some h, some m, some q =>
        some (q.1, q.2.1, q.2.2.1, q.2.2.2, some ((h * 3600 + m * 60 : Nat) : Int))
      | _, _, _ => none
    | _ => none
  | _ => none

/-- Parse `YYYY-MM-DD`. -/
def parse_date_part (d : String) : Option (Nat × Nat × Nat) :=
  match pySplit d '-' with
  | [yy, mm, dd] =>
    match parseNum yy, parseNum mm, parseNum dd with
    | some y, some m, some da => some (y, m, da)
    | _, _, _ => none
  | _ => none

/-- `dateutil.parser.parse`, modeled for the ISO-8601 strings this code
produces and consumes: a date, optionally followed by `T` and a time with
optional fraction and optional `+HH:MM` offset; anything else is a parse
error. -/
def parse_iso (s : String) : Option PyDateTime :=
  match pySplit s 'T' with
  | [d] =>
    (parse_date_part d).map fun c =>
      { year := c.1, month := c.2.1, day := c.2.2, hour := 0, minute := 0,
        second := 0, microsecond := 0, tzOffset := none }
  | [d, t] =>
    match parse_date_part d, parse_time_part t with
    | some c, some q =>
      some { year := c.1, month := c.2.1, day := c.2.2, hour := q.1,
             minute := q.2.1, second := q.2.2.1, microsecond := q.2.2.2.1,
             tzOffset := q.2.2.2.2 }
    | _, _ => none
  | _ => none

/-- Embedding of `read_date_time(time_string)`: parse, force UTC, and return
`(isoformat, int(timestamp()), microsecond)`; `none` is a parse failure. -/
def read_date_time (time_string : String) : Option (String × Int × Nat) :=
  (parse_iso time_string).map fun dt0 =>
    let dt := check_timezone dt0
    (isoformat dt, int_of_float_secs (timestampMicro dt), dt.microsecond)

/-! #### Metadata dictionaries and `validate_time_metadata` -/

/-- A metadata dictionary value: string or integer. -/
inductive MVal where
  | s (v : String)
  | i (v : Int)
  deriving DecidableEq, Repr

/-- First-match dictionary read. -/
def dictGet : List (String × MVal) → String → Option MVal
  | [], _ => none
  | (k, v) :: rest, key => if k = key then some v else dictGet rest key

/-- `meta_dict[key] = v`: replace in place, or append a fresh key. -/
def dictSet : List (String × MVal) → String → MVal → List (String × MVal)
  | [], key, v => [(key, v)]
  | (k, w) :: rest, key, v =>
    if k = key then (key, v) :: rest else (k, w) :: dictSet rest key v

/-- The five recognised time-field bases, in the insertion order of the
`t_keys` literal. -/
def time_bases : List String :=
  ["deploy_time", "pickup_time", "start_time", "end_time", "time_stamp"]

/-- The accumulator `t_keys`: per base, the parsed ascii datetime and the
epoch datetime (dictionaries with keys `ascii_s` / `epoch_l` in the source). -/
def t_keys_init : List (String × (Option PyDateTime × Option PyDateTime)) :=
  time_bases.map fun b => (b, (none, none))

/-- Update one base's pair in `t_keys`. -/
def tk_update (tks : List (String × (Option PyDateTime × Option PyDateTime)))
    (base : String)
    (f : Option PyDateTime × Option PyDateTime → Option PyDateTime × Option PyDateTime) :
    List (String × (Option PyDateTime × Option PyDateTime)) :=
  tks.map fun p => if p.1 = base then (p.1, f p.2) else p

/-- One iteration of the first loop of `validate_time_metadata` (over
`meta_dict.items()`): skip `declination` keys; a key containing `ascii_s`
parses its string value and stores `check_timezone(parse(value))`; a key
containing `epoch` adds the sibling `micro_seconds_i` value when present
(`except KeyError: pass`) and stores
`check_timezone(datetime.fromtimestamp(float(value)))`.  Unrecognised bases
raise `KeyError` (`t_keys[base]`); wrongly-typed values raise `TypeError`
(integer ascii values, string epoch values — numeric strings, which `float()`
would accept, do not occur in rows this code builds). -/
def validate_step (loc : Int) (meta : List (String × MVal))
    (tks : List (String × (Option PyDateTime × Option PyDateTime)))
    (item : String × MVal) :
    Except String (List (String × (Option PyDateTime × Option PyDateTime))) :=
  if substr_in "declination" item.1 then .ok tks
  else if substr_in "ascii_s" item.1 then
    match item.2 with
    | .s v =>
      match parse_iso v with
      | some dt =>
        if (pySplit item.1 '/').headD "" ∈ time_bases then
          .ok (tk_update tks ((pySplit item.1 '/').headD "") fun p =>
            (some (check_timezone dt), p.2))
        else .error "KeyError"
      | none => .error "parse error"
    | .i _ => .error "TypeError"
  else if substr_in "epoch" item.1 then
    match item.2 with
    | .i v =>
      match dictGet meta (((pySplit item.1 '/').headD "") ++ "/micro_seconds_i") with
      | some (.s _) => .error "TypeError"
      | some (.i mv) =>
        if (pySplit item.1 '/').headD "" ∈ time_bases then
          .ok (tk_update tks ((pySplit item.1 '/').headD "") fun p =>
            (p.1, some (check_timezone (fromtimestamp (v + mv) loc))))
        else .error "KeyError"
      | none =>
        if (pySplit item.1 '/').headD "" ∈ time_bases then
          .ok (tk_update tks ((pySplit item.1 '/').headD "") fun p =>
            (p.1, some (check_timezone (fromtimestamp v loc))))
        else .error "KeyError"
    | .s _ => .error "TypeError"
  else .ok tks

/-- Write the reconciled `{ascii_s, epoch_l, micro_seconds_i}` triple of one
base back into the metadata dictionary. -/
def dictSetTriple (meta : List (String × MVal)) (base iso : String) (ts : Int)
    (ms : Nat) : List (String × MVal) :=
  dictSet (dictSet (dictSet meta (base ++ "/ascii_s") (.s iso))
    (base ++ "/epoch_l") (.i ts)) (base ++ "/micro_seconds_i") (.i (ms : Int))

/-- One iteration of the second loop of `validate_time_metadata` (over
`t_keys.items()`): when both timestamps exist and differ (aware datetimes
compare by instant), or when exactly one exists, recompute the three fields
from `read_date_time(<the trusted datetime>.isoformat())`; a datetime whose
isoformat failed to re-parse would raise (cannot happen for values built by
the first loop). -/
def reconcile_base (acc : List (String × MVal)) (base : String)
    (tv : Option PyDateTime × Option PyDateTime) :
    Except String (List (String × MVal)) :=
  match tv with
  | (some dts, some dte) =>
    if timestampMicro dte ≠ timestampMicro dts then
      match read_date_time (isoformat dts) with
      | some r => .ok (dictSetTriple acc base r.1 r.2.1 r.2.2)
      | none => .error "parse error"
    else .ok acc
  | (none, none) => .ok acc
  | (some dts, none) =>
    match read_date_time (isoformat dts) with
    | some r => .ok (dictSetTriple acc base r.1 r.2.1 r.2.2)
    | none => .error "parse error"
  | (none, some dte) =>
    match read_date_time (isoformat dte) with
    | some r => .ok (dictSetTriple acc base r.1 r.2.1 r.2.2)
    | none => .error "parse error"

/-- The extraction loop of `validate_time_metadata`. -/
def validate_extract (loc : Int) (meta : List (String × MVal)) :
    Except String (List (String × (Option PyDateTime × Option PyDateTime))) :=
  meta.foldlM (validate_step loc meta) t_keys_init

/-- Embedding of `validate_time_metadata(meta_dict)` (parameterised by the
host's UTC offset `loc`, consumed by `datetime.fromtimestamp`). -/
def validate_time_metadata (loc : Int) (meta : List (String × MVal)) :
    Except String (List (String × MVal)) :=
  match validate_extract loc meta with
  | .error e => .error e
  | .ok tks => tks.foldlM (fun acc p => reconcile_base acc p.1 p.2) meta

/-! #### Digit-string facts -/

theorem digitVal_lt_ten_of_digitChar (n : Nat) (h : n < 10) :
    digitVal (digitChar n) < 10 := by
  rw [digitVal_digitChar n h]
  exact h

theorem natDigitsAux_all_digits (fuel n : Nat) :
    ∀ c ∈ natDigitsAux fuel n, digitVal c < 10 := by
  induction fuel generalizing n with
  | zero => intro c hc; cases hc
  | succ fuel ih =>
    intro c hc
    by_cases h10 : n < 10
    · simp only [natDigitsAux, if_pos h10, List.mem_singleton] at hc
      subst hc
      exact digitVal_lt_ten_of_digitChar n h10
    · simp only [natDigitsAux, if_neg h10, List.mem_append, List.mem_singleton] at hc
      rcases hc with hc | hc
      · exact ih (n / 10) c hc
      · subst hc
        exact digitVal_lt_ten_of_digitChar _ (Nat.mod_lt _ (by omega))

theorem natDigits_ne_nil (n : Nat) : natDigits n ≠ [] := by
  unfold natDigits natDigitsAux
  by_cases h10 : n < 10
  · simp [h10]
  · simp [h10]

theorem padZeros_data (w n : Nat) :
    (padZeros w n).data = List.replicate (w - (natDigits n).length) '0' ++ natDigits n := by
  simp [padZeros, String.length]

theorem padZeros_all_digits (w n : Nat) :
    ∀ c ∈ (padZeros w n).data, digitVal c < 10 := by
  intro c hc
  rw [padZeros_data, List.mem_append] at hc
  rcases hc with hc | hc
  · rw [List.eq_of_mem_replicate hc]
    decide
  · exact natDigitsAux_all_digits _ _ c hc

theorem padZeros_data_ne_nil (w n : Nat) : (padZeros w n).data ≠ [] := by
  rw [padZeros_data]
  intro h
  exact natDigits_ne_nil n (List.append_eq_nil.mp h).2

theorem allDigits_padZeros (w n : Nat) : allDigits (padZeros w n).data = true := by
  unfold allDigits
  rw [Bool.and_eq_true]
  constructor
  · simp [List.isEmpty_iff, padZeros_data_ne_nil w n]
  · rw [List.all_eq_true]
    intro c hc
    exact decide_eq_true (padZeros_all_digits w n c hc)

theorem parseNum_padZeros (w n : Nat) : parseNum ⟨(padZeros w n).data⟩ = some n := by
  unfold parseNum
  rw [show (⟨(padZeros w n).data⟩ : String).data = (padZeros w n).data from rfl,
    allDigits_padZeros]
  simp [digitsVal_padZeros]

theorem digitsVal_foldl_lt (l : List Char) (a : Nat)
    (h : ∀ c ∈ l, digitVal c < 10) :
    l.foldl (fun a c => 10 * a + digitVal c) a < (a + 1) * 10 ^ l.length := by
  induction l generalizing a with
  | nil => simp
  | cons c rest ih =>
    have hc : digitVal c < 10 := h c (List.mem_cons_self c rest)
    have hrest := ih (10 * a + digitVal c) fun x hx => h x (List.mem_cons_of_mem c hx)
    calc List.foldl (fun a c => 10 * a + digitVal c) (10 * a + digitVal c) rest
        < (10 * a + digitVal c + 1) * 10 ^ rest.length := hrest
      _ ≤ (a + 1) * 10 ^ (c :: rest).length := by
          rw [List.length_cons, pow_succ]
          have : 10 * a + digitVal c + 1 ≤ (a + 1) * 10 := by omega
          calc (10 * a + digitVal c + 1) * 10 ^ rest.length
              ≤ (a + 1) * 10 * 10 ^ rest.length := Nat.mul_le_mul_right _ this
            _ = (a + 1) * (10 ^ rest.length * 10) := by ring

theorem digitsVal_lt (l : List Char) (h : ∀ c ∈ l, digitVal c < 10) :
    digitsVal l < 10 ^ l.length := by
  have := digitsVal_foldl_lt l 0 h
  simpa [digitsVal] using this

theorem natDigitsAux_length_le (fuel n k : Nat) (hf : n < fuel) (hk : 1 ≤ k)
    (h : n < 10 ^ k) : (natDigitsAux fuel n).length ≤ k := by
  induction fuel generalizing n k with
  | zero => omega
  | succ fuel ih =>
    by_cases h10 : n < 10
    · simpa [natDigitsAux, h10] using hk
    · have hk2 : 2 ≤ k := by
        rcases Nat.lt_or_ge k 2 with hlt | hge
        · interval_cases k
          omega
        · exact hge
      have hdiv : n / 10 < 10 ^ (k - 1) := by
        have h1 : n < 10 ^ k := h
        have : 10 ^ k = 10 ^ (k - 1) * 10 := by
          rw [← pow_succ]
          congr 1
          omega
        rw [this] at h1
        omega
      have hfd : n / 10 < fuel := by
        have := Nat.div_lt_self (show 0 < n by omega) (show 1 < 10 by omega)
        omega
      have := ih (n / 10) (k - 1) hfd (by omega) hdiv
      simp only [natDigitsAux, if_neg h10, List.length_append, List.length_singleton]
      omega

theorem natDigits_length_le (n k : Nat) (hk : 1 ≤ k) (h : n < 10 ^ k) :
    (natDigits n).length ≤ k :=
  natDigitsAux_length_le (n + 1) n k (Nat.lt_succ_self n) hk h

theorem padZeros_length (w n : Nat) (h : (natDigits n).length ≤ w) :
    (padZeros w n).data.length = w := by
  rw [padZeros_data, List.length_append, List.length_replicate]
  omega

/-! #### `pySplit` facts -/

theorem pySplitAux_no_sep (sep : Char) (l acc : List Char)
    (h : ∀ c ∈ l, c ≠ sep) : pySplitAux sep l acc = [⟨acc.reverse ++ l⟩] := by
  induction l generalizing acc with
  | nil => simp [pySplitAux]
  | cons c rest ih =>
    have hc : c ≠ sep := h c (List.mem_cons_self c rest)
    simp only [pySplitAux, if_neg hc]
    rw [ih (c :: acc) fun x hx => h x (List.mem_cons_of_mem c hx)]
    simp

theorem pySplitAux_append_sep (sep : Char) (l1 l2 acc : List Char)
    (h : ∀ c ∈ l1, c ≠ sep) :
    pySplitAux sep (l1 ++ sep :: l2) acc =
      ⟨acc.reverse ++ l1⟩ :: pySplitAux sep l2 [] := by
  induction l1 generalizing acc with
  | nil => simp [pySplitAux]
  | cons c rest ih =>
    have hc : c ≠ sep := h c (List.mem_cons_self c rest)
    simp only [List.cons_append, pySplitAux, if_neg hc, List.append_eq]
    rw [ih (c :: acc) fun x hx => h x (List.mem_cons_of_mem c hx)]
    simp

theorem no_sep_append {sep : Char} {l1 l2 : List Char}
    (h1 : ∀ c ∈ l1, c ≠ sep) (h2 : ∀ c ∈ l2, c ≠ sep) :
    ∀ c ∈ l1 ++ l2, c ≠ sep := by
  intro c hc
  rcases List.mem_append.mp hc with hc | hc
  · exact h1 c hc
  · exact h2 c hc

theorem no_sep_cons {sep c0 : Char} {l : List Char} (h0 : c0 ≠ sep)
    (h : ∀ c ∈ l, c ≠ sep) : ∀ c ∈ c0 :: l, c ≠ sep := by
  intro c hc
  rcases List.mem_cons.mp hc with rfl | hc
  · exact h0
  · exact h c hc

theorem no_sep_nil {sep : Char} : ∀ c ∈ ([] : List Char), c ≠ sep := by
  intro c hc
  cases hc

/-- Digit characters are none of the ISO separators. -/
theorem padZeros_no_sep (w n : Nat) (sep : Char) (hsep : digitVal sep = 10) :
    ∀ c ∈ (padZeros w n).data, c ≠ sep := by
  intro c hc heq
  have := padZeros_all_digits w n c hc
  rw [heq, hsep] at this
  omega

theorem offsetStr_zero : offsetStr 0 = "+00:00" := by decide

theorem pySplitAux_skip_chunk (sep : Char) (l1 rest acc : List Char)
    (h : ∀ c ∈ l1, c ≠ sep) :
    pySplitAux sep (l1 ++ rest) acc = pySplitAux sep rest (l1.reverse ++ acc) := by
  induction l1 generalizing acc with
  | nil => simp
  | cons c l1 ih =>
    have hc : c ≠ sep := h c (List.mem_cons_self c l1)
    simp only [List.cons_append, pySplitAux, if_neg hc, List.append_eq]
    rw [ih (c :: acc) fun x hx => h x (List.mem_cons_of_mem c hx)]
    simp

theorem pySplitAux_skip_one (sep c : Char) (rest acc : List Char) (hc : c ≠ sep) :
    pySplitAux sep (c :: rest) acc = pySplitAux sep rest (c :: acc) := by
  simp [pySplitAux, hc]

theorem pySplitAux_hit (sep : Char) (rest acc : List Char) :
    pySplitAux sep (sep :: rest) acc = ⟨acc.reverse⟩ :: pySplitAux sep rest [] := by
  simp [pySplitAux]

/-- Round trip: `dateutil.parser.parse` recovers a UTC datetime from its own
`isoformat()` rendering (any field values; microseconds below one million, as
Python guarantees). -/
theorem parse_iso_isoformat (dt : PyDateTime) (htz : dt.tzOffset = some 0)
    (hmu : dt.microsecond < 1000000) : parse_iso (isoformat dt) = some dt := by
  obtain ⟨y, mo, da, hr, mi, se, mu, tz⟩ := dt
  simp only at htz hmu
  subst htz
  have hT : digitVal 'T' = 10 := rfl
  have hD : digitVal '-' = 10 := rfl
  have hC : digitVal ':' = 10 := rfl
  have hP : digitVal '+' = 10 := rfl
  have hDot : digitVal '.' = 10 := rfl
  have hFD_no : ∀ sep : Char, digitVal sep = 10 → sep ≠ '.' →
      ∀ c ∈ (if mu = 0 then ([] : List Char) else '.' :: (padZeros 6 mu).data),
        c ≠ sep := by
    intro sep hsep hsepdot
    by_cases h0 : mu = 0
    · simp only [if_pos h0]
      exact no_sep_nil
    · simp only [if_neg h0]
      exact no_sep_cons (fun hcon => hsepdot hcon.symm) (padZeros_no_sep 6 mu sep hsep)
  have hdata : (isoformat ⟨y, mo, da, hr, mi, se, mu, some 0⟩).data =
      ((padZeros 4 y).data ++ ('-' :: ((padZeros 2 mo).data ++
        ('-' :: (padZeros 2 da).data)))) ++
      ('T' :: ((padZeros 2 hr).data ++ (':' :: ((padZeros 2 mi).data ++
        (':' :: ((padZeros 2 se).data ++
          ((if mu = 0 then ([] : List Char) else '.' :: (padZeros 6 mu).data) ++
            ('+' :: ['0', '0', ':', '0', '0'])))))))) := by
    by_cases h0 : mu = 0
    · simp [isoformat, offsetStr_zero, h0, String.data_append]
    · simp [isoformat, offsetStr_zero, h0, String.data_append]
  have hsplitT : pySplit (isoformat ⟨y, mo, da, hr, mi, se, mu, some 0⟩) 'T' =
      [⟨(padZeros 4 y).data ++ ('-' :: ((padZeros 2 mo).data ++
          ('-' :: (padZeros 2 da).data)))⟩,
       ⟨(padZeros 2 hr).data ++ (':' :: ((padZeros 2 mi).data ++
          (':' :: ((padZeros 2 se).data ++
            ((if mu = 0 then ([] : List Char) else '.' :: (padZeros 6 mu).data) ++
              ('+' :: ['0', '0', ':', '0', '0']))))))⟩] := by
    unfold pySplit
    rw [hdata, pySplitAux_append_sep 'T' _ _ []
      (no_sep_append (padZeros_no_sep 4 y 'T' hT)
        (no_sep_cons (by decide) (no_sep_append (padZeros_no_sep 2 mo 'T' hT)
          (no_sep_cons (by decide) (padZeros_no_sep 2 da 'T' hT))))),
      pySplitAux_no_sep 'T' _ []
      (no_sep_append (padZeros_no_sep 2 hr 'T' hT)
        (no_sep_cons (by decide) (no_sep_append (padZeros_no_sep 2 mi 'T' hT)
          (no_sep_cons (by decide) (no_sep_append (padZeros_no_sep 2 se 'T' hT)
            (no_sep_append (hFD_no 'T' hT (by decide))
              (no_sep_cons (by decide) (by decide))))))))]
    simp
  have hdate : parse_date_part
      ⟨(padZeros 4 y).data ++ ('-' :: ((padZeros 2 mo).data ++
        ('-' :: (padZeros 2 da).data)))⟩ = some (y, mo, da) := by
    unfold parse_date_part pySplit
    rw [show (⟨(padZeros 4 y).data ++ ('-' :: ((padZeros 2 mo).data ++
        ('-' :: (padZeros 2 da).data)))⟩ : String).data =
        (padZeros 4 y).data ++ ('-' :: ((padZeros 2 mo).data ++
        ('-' :: (padZeros 2 da).data))) from rfl,
      pySplitAux_append_sep '-' _ _ [] (padZeros_no_sep 4 y '-' hD),
      pySplitAux_append_sep '-' _ _ [] (padZeros_no_sep 2 mo '-' hD),
      pySplitAux_no_sep '-' _ [] (padZeros_no_sep 2 da '-' hD)]
    simp [parseNum_padZeros]
  have hcolon : pySplit ⟨(padZeros 2 hr).data ++ (':' :: ((padZeros 2 mi).data ++
      (':' :: ((padZeros 2 se).data ++
        (if mu = 0 then ([] : List Char) else '.' :: (padZeros 6 mu).data)))))⟩ ':' =
      [⟨(padZeros 2 hr).data⟩, ⟨(padZeros 2 mi).data⟩,
       ⟨(padZeros 2 se).data ++
         (if mu = 0 then ([] : List Char) else '.' :: (padZeros 6 mu).data)⟩] := by
    unfold pySplit
    rw [show (⟨(padZeros 2 hr).data ++ (':' :: ((padZeros 2 mi).data ++
        (':' :: ((padZeros 2 se).data ++
          (if mu = 0 then ([] : List Char) else '.' :: (padZeros 6 mu).data)))))⟩ :
          String).data =
        (padZeros 2 hr).data ++ (':' :: ((padZeros 2 mi).data ++
        (':' :: ((padZeros 2 se).data ++
          (if mu = 0 then ([] : List Char) else '.' :: (padZeros 6 mu).data))))) from
        rfl,
      pySplitAux_append_sep ':' _ _ [] (padZeros_no_sep 2 hr ':' hC),
      pySplitAux_append_sep ':' _ _ [] (padZeros_no_sep 2 mi ':' hC),
      pySplitAux_no_sep ':' _ []
        (no_sep_append (padZeros_no_sep 2 se ':' hC) (hFD_no ':' hC (by decide)))]
    simp
  have hhms : parse_hms ⟨(padZeros 2 hr).data ++ (':' :: ((padZeros 2 mi).data ++
      (':' :: ((padZeros 2 se).data ++
        (if mu = 0 then ([] : List Char) else '.' :: (padZeros 6 mu).data)))))⟩ =
      some (hr, mi, se, mu) := by
    unfold parse_hms
    rw [hcolon]
    by_cases h0 : mu = 0
    · have hdot0 : pySplit ⟨(padZeros 2 se).data⟩ '.' = [⟨(padZeros 2 se).data⟩] := by
        unfold pySplit
        rw [show (⟨(padZeros 2 se).data⟩ : String).data = (padZeros 2 se).data from
            rfl,
          pySplitAux_no_sep '.' _ [] (padZeros_no_sep 2 se '.' hDot)]
        simp
      simp only [if_pos h0, List.append_nil, hdot0]
      simp [parseNum_padZeros, h0]
    · have hdot1 : pySplit ⟨(padZeros 2 se).data ++ ('.' :: (padZeros 6 mu).data)⟩
          '.' = [⟨(padZeros 2 se).data⟩, ⟨(padZeros 6 mu).data⟩] := by
        unfold pySplit
        rw [show (⟨(padZeros 2 se).data ++ ('.' :: (padZeros 6 mu).data)⟩ :
              String).data =
            (padZeros 2 se).data ++ ('.' :: (padZeros 6 mu).data) from rfl,
          pySplitAux_append_sep '.' _ _ [] (padZeros_no_sep 2 se '.' hDot),
          pySplitAux_no_sep '.' _ [] (padZeros_no_sep 6 mu '.' hDot)]
        simp
      have hlen : (padZeros 6 mu).data.length = 6 :=
        padZeros_length 6 mu (natDigits_length_le mu 6 (by omega) (by
          have h6 : (10 : Nat) ^ 6 = 1000000 := by norm_num
          omega))
      have htake : ((padZeros 6 mu).data ++ ['0', '0', '0', '0', '0', '0']).take 6 =
          (padZeros 6 mu).data := by
        generalize hgen : (padZeros 6 mu).data = l at hlen ⊢
        rw [← hlen]
        exact List.take_left _ _
      simp only [if_neg h0, hdot1]
      simp [allDigits_padZeros, htake, parseNum_padZeros, digitsVal_padZeros]
  have hplus : pySplit ⟨(padZeros 2 hr).data ++ (':' :: ((padZeros 2 mi).data ++
      (':' :: ((padZeros 2 se).data ++
        ((if mu = 0 then ([] : List Char) else '.' :: (padZeros 6 mu).data) ++
          ('+' :: ['0', '0', ':', '0', '0']))))))⟩ '+' =
      [⟨(padZeros 2 hr).data ++ (':' :: ((padZeros 2 mi).data ++
        (':' :: ((padZeros 2 se).data ++
          (if mu = 0 then ([] : List Char) else '.' :: (padZeros 6 mu).data)))))⟩,
       ⟨['0', '0', ':', '0', '0']⟩] := by
    unfold pySplit
    rw [show (⟨(padZeros 2 hr).data ++ (':' :: ((padZeros 2 mi).data ++
        (':' :: ((padZeros 2 se).data ++
          ((if mu = 0 then ([] : List Char) else '.' :: (padZeros 6 mu).data) ++
            ('+' :: ['0', '0', ':', '0', '0']))))))⟩ : String).data =
        (padZeros 2 hr).data ++ (':' :: ((padZeros 2 mi).data ++
        (':' :: ((padZeros 2 se).data ++
          ((if mu = 0 then ([] : List Char) else '.' :: (padZeros 6 mu).data) ++
            ('+' :: ['0', '0', ':', '0', '0'])))))) from rfl,
      pySplitAux_skip_chunk '+' _ _ _ (padZeros_no_sep 2 hr '+' hP),
      pySplitAux_skip_one '+' _ _ _ (by decide),
      pySplitAux_skip_chunk '+' _ _ _ (padZeros_no_sep 2 mi '+' hP),
      pySplitAux_skip_one '+' _ _ _ (by decide),
      pySplitAux_skip_chunk '+' _ _ _ (padZeros_no_sep 2 se '+' hP),
      pySplitAux_skip_chunk '+' _ _ _ (hFD_no '+' hP (by decide)),
      pySplitAux_hit '+',
      pySplitAux_no_sep '+' _ [] (by decide)]
    simp
  have htime : parse_time_part
      ⟨(padZeros 2 hr).data ++ (':' :: ((padZeros 2 mi).data ++
        (':' :: ((padZeros 2 se).data ++
          ((if mu = 0 then ([] : List Char) else '.' :: (padZeros 6 mu).data) ++
            ('+' :: ['0', '0', ':', '0', '0']))))))⟩ =
      some (hr, mi, se, mu, some 0) := by
    unfold parse_time_part
    simp only [hplus,
      show pySplit ⟨['0', '0', ':', '0', '0']⟩ ':' = ["00", "00"] from rfl,
      show parseNum "00" = some 0 from rfl, hhms]
    rfl
  unfold parse_iso
  simp only [hsplitT, hdate, htime]

/-! #### `check_timezone` facts and well-formedness of extracted datetimes -/

theorem check_timezone_tzOffset (dt : PyDateTime) :
    (check_timezone dt).tzOffset = some 0 := by
  unfold check_timezone
  split
  · rfl
  · next h =>
    push_neg at h
    exact h.2

theorem check_timezone_microsecond (dt : PyDateTime) :
    (check_timezone dt).microsecond = dt.microsecond := by
  unfold check_timezone
  split
  · rfl
  · rfl

theorem check_timezone_of_utc (dt : PyDateTime) (h : dt.tzOffset = some 0) :
    check_timezone dt = dt := by
  unfold check_timezone
  rw [if_neg]
  push_neg
  exact ⟨by simp [h], by simp [h]⟩

theorem allDigits_mem (l : List Char) (h : allDigits l = true) :
    ∀ c ∈ l, digitVal c < 10 := by
  unfold allDigits at h
  rw [Bool.and_eq_true, List.all_eq_true] at h
  intro c hc
  simpa using h.2 c hc

theorem parse_hms_micro_lt (m : String) (q : Nat × Nat × Nat × Nat)
    (h : parse_hms m = some q) : q.2.2.2 < 1000000 := by
  unfold parse_hms at h
  split at h
  · split at h
    · split at h
      · cases h
        exact (by omega : (0 : Nat) < 1000000)
      · cases h
    · rename_i ss frac heq
      split at h
      · rename_i hdig
        split at h
        · cases h
          show digitsVal ((frac.data ++ List.replicate 6 '0').take 6) < 1000000
          have hmem : ∀ c ∈ (frac.data ++ List.replicate 6 '0').take 6,
              digitVal c < 10 := by
            intro c hc
            have hc' := List.mem_of_mem_take hc
            rcases List.mem_append.mp hc' with hc'' | hc''
            · exact allDigits_mem frac.data hdig c hc''
            · rw [List.eq_of_mem_replicate hc'']
              decide
          have hlen : ((frac.data ++ List.replicate 6 '0').take 6).length ≤ 6 :=
            List.length_take_le _ _
          have hval := digitsVal_lt _ hmem
          have hpow : (10 : Nat) ^ ((frac.data ++ List.replicate 6 '0').take 6).length
              ≤ 10 ^ 6 := Nat.pow_le_pow_right (by omega) hlen
          have h6 : (10 : Nat) ^ 6 = 1000000 := by norm_num
          omega
        · cases h
      · cases h
    · cases h
  · cases h

theorem parse_time_part_micro_lt (t : String) (q : Nat × Nat × Nat × Nat × Option Int)
    (h : parse_time_part t = some q) : q.2.2.2.1 < 1000000 := by
  unfold parse_time_part at h
  split at h
  · cases hm : parse_hms _ with
    | none => rw [hm] at h; cases h
    | some q' =>
      rw [hm] at h
      cases h
      exact parse_hms_micro_lt _ q' hm
  · split at h
    · split at h
      · next q' _ _ _ =>
        cases h
        exact parse_hms_micro_lt _ q' (by assumption)
      · cases h
    · cases h
  · cases h

theorem parse_iso_micro_lt (s : String) (dt : PyDateTime)
    (h : parse_iso s = some dt) : dt.microsecond < 1000000 := by
  unfold parse_iso at h
  split at h
  · cases hd : parse_date_part _ with
    | none => rw [hd] at h; cases h
    | some c =>
      rw [hd] at h
      cases h
      exact (by omega : (0 : Nat) < 1000000)
  · split at h
    · next c q _ _ =>
      cases h
      exact parse_time_part_micro_lt _ q (by assumption)
    · cases h
  · cases h

/-- Datetimes the extraction loop stores: UTC-tagged, microseconds in range. -/
def GoodDT (dt : PyDateTime) : Prop :=
  dt.tzOffset = some 0 ∧ dt.microsecond < 1000000

/-- Both components of a `t_keys` pair are good when present. -/
def GoodPair (tv : Option PyDateTime × Option PyDateTime) : Prop :=
  (∀ dt, tv.1 = some dt → GoodDT dt) ∧ (∀ dt, tv.2 = some dt → GoodDT dt)

theorem goodDT_check_parse (s : String) (dt : PyDateTime)
    (h : parse_iso s = some dt) : GoodDT (check_timezone dt) :=
  ⟨check_timezone_tzOffset dt, by
    rw [check_timezone_microsecond]
    exact parse_iso_micro_lt s dt h⟩

theorem goodDT_check_fromtimestamp (v loc : Int) :
    GoodDT (check_timezone (fromtimestamp v loc)) :=
  ⟨check_timezone_tzOffset _, by
    rw [check_timezone_microsecond]
    exact (by omega : (0 : Nat) < 1000000)⟩

theorem tk_update_keys (tks : List (String × (Option PyDateTime × Option PyDateTime)))
    (base : String)
    (f : Option PyDateTime × Option PyDateTime → Option PyDateTime × Option PyDateTime) :
    (tk_update tks base f).map Prod.fst = tks.map Prod.fst := by
  unfold tk_update
  induction tks with
  | nil => rfl
  | cons p rest ih =>
    by_cases hp : p.1 = base
    · simp [hp, ih]
    · simp [hp, ih]

theorem tk_update_forall (tks : List (String × (Option PyDateTime × Option PyDateTime)))
    (base : String)
    (f : Option PyDateTime × Option PyDateTime → Option PyDateTime × Option PyDateTime)
    (h : ∀ q ∈ tks, GoodPair q.2) (hf : ∀ pr, GoodPair pr → GoodPair (f pr)) :
    ∀ q ∈ tk_update tks base f, GoodPair q.2 := by
  intro q hq
  unfold tk_update at hq
  rw [List.mem_map] at hq
  obtain ⟨p, hp, rfl⟩ := hq
  by_cases hpb : p.1 = base
  · simp only [if_pos hpb]
    exact hf p.2 (h p hp)
  · simp only [if_neg hpb]
    exact h p hp

theorem validate_step_ok (loc : Int) (meta : List (String × MVal))
    (tks tks' : List (String × (Option PyDateTime × Option PyDateTime)))
    (item : String × MVal) (h : validate_step loc meta tks item = .ok tks') :
    tks'.map Prod.fst = tks.map Prod.fst ∧
    ((∀ q ∈ tks, GoodPair q.2) → ∀ q ∈ tks', GoodPair q.2) := by
  unfold validate_step at h
  split at h
  · cases h
    exact ⟨rfl, fun hg => hg⟩
  · split at h
    · split at h
      · split at h
        · rename_i v dt hdt
          split at h
          · cases h
            refine ⟨tk_update_keys _ _ _, fun hg => tk_update_forall _ _ _ hg ?_⟩
            intro pr hpr
            refine ⟨?_, hpr.2⟩
            intro dt' heq
            cases heq
            exact goodDT_check_parse _ _ hdt
          · cases h
        · cases h
      · cases h
    · split at h
      · split at h
        · split at h
          · cases h
          · split at h
            · cases h
              refine ⟨tk_update_keys _ _ _, fun hg => tk_update_forall _ _ _ hg ?_⟩
              intro pr hpr
              refine ⟨hpr.1, ?_⟩
              intro dt' heq
              cases heq
              exact goodDT_check_fromtimestamp _ _
            · cases h
          · split at h
            · cases h
              refine ⟨tk_update_keys _ _ _, fun hg => tk_update_forall _ _ _ hg ?_⟩
              intro pr hpr
              refine ⟨hpr.1, ?_⟩
              intro dt' heq
              cases heq
              exact goodDT_check_fromtimestamp _ _
            · cases h
        · cases h
      · cases h
        exact ⟨rfl, fun hg => hg⟩

theorem validate_extract_good (loc : Int) (meta : List (String × MVal))
    (tks : List (String × (Option PyDateTime × Option PyDateTime)))
    (h : validate_extract loc meta = .ok tks) :
    tks.map Prod.fst = time_bases ∧ ∀ q ∈ tks, GoodPair q.2 := by
  have hgen : ∀ (l : List (String × MVal))
      (init : List (String × (Option PyDateTime × Option PyDateTime))),
      init.map Prod.fst = time_bases → (∀ q ∈ init, GoodPair q.2) →
      ∀ out, List.foldlM (validate_step loc meta) init l = .ok out →
        out.map Prod.fst = time_bases ∧ ∀ q ∈ out, GoodPair q.2 := by
    intro l
    induction l with
    | nil =>
      intro init hkeys hgood out hout
      cases hout
      exact ⟨hkeys, hgood⟩
    | cons x xs ih =>
      intro init hkeys hgood out hout
      rw [List.foldlM_cons] at hout
      cases hstep : validate_step loc meta init x with
      | error e =>
        rw [hstep] at hout
        cases hout
      | ok i1 =>
        rw [hstep] at hout
        obtain ⟨hk1, hg1⟩ := validate_step_ok loc meta init i1 x hstep
        exact ih i1 (hk1.trans hkeys) (hg1 hgood) out hout
  refine hgen meta t_keys_init rfl ?_ tks h
  intro q hq
  unfold t_keys_init at hq
  rw [List.mem_map] at hq
  obtain ⟨b, _, rfl⟩ := hq
  exact ⟨fun dt heq => (nomatch heq), fun dt heq => nomatch heq⟩

/-! #### Dictionary writes and the reconciliation loop -/

theorem dictGet_dictSet_self (m : List (String × MVal)) (k : String) (v : MVal) :
    dictGet (dictSet m k v) k = some v := by
  induction m with
  | nil => simp [dictSet, dictGet]
  | cons p rest ih =>
    obtain ⟨k', v'⟩ := p
    by_cases hk : k' = k
    · simp [dictSet, dictGet, hk]
    · simp only [dictSet, if_neg hk, dictGet]
      exact ih

theorem dictGet_dictSet_ne (m : List (String × MVal)) (k key : String) (v : MVal)
    (h : key ≠ k) : dictGet (dictSet m k v) key = dictGet m key := by
  induction m with
  | nil =>
    simp only [dictSet, dictGet]
    rw [if_neg fun hc => h hc.symm]
  | cons p rest ih =>
    obtain ⟨k', v'⟩ := p
    by_cases hk : k' = k
    · subst hk
      simp only [dictSet, if_pos rfl, dictGet]
      rw [if_neg (fun hc => h hc.symm), if_neg (fun hc => h hc.symm)]
    · simp only [dictSet, if_neg hk, dictGet]
      by_cases hk2 : k' = key
      · rw [if_pos hk2, if_pos hk2]
      · rw [if_neg hk2, if_neg hk2]
        exact ih

theorem string_append_right_ne (b : String) {s1 s2 : String} (h : s1 ≠ s2) :
    b ++ s1 ≠ b ++ s2 := by
  intro hc
  apply h
  have hd := congrArg String.data hc
  rw [String.data_append, String.data_append] at hd
  exact String.ext (List.append_cancel_left hd)

theorem dictGet_dictSetTriple_ne (m : List (String × MVal)) (base iso : String)
    (ts : Int) (ms : Nat) (key : String) (h1 : key ≠ base ++ "/ascii_s")
    (h2 : key ≠ base ++ "/epoch_l") (h3 : key ≠ base ++ "/micro_seconds_i") :
    dictGet (dictSetTriple m base iso ts ms) key = dictGet m key := by
  unfold dictSetTriple
  rw [dictGet_dictSet_ne _ _ _ _ h3, dictGet_dictSet_ne _ _ _ _ h2,
    dictGet_dictSet_ne _ _ _ _ h1]

theorem dictGet_dictSetTriple_self (m : List (String × MVal)) (base iso : String)
    (ts : Int) (ms : Nat) :
    dictGet (dictSetTriple m base iso ts ms) (base ++ "/ascii_s") = some (.s iso) ∧
    dictGet (dictSetTriple m base iso ts ms) (base ++ "/epoch_l") = some (.i ts) ∧
    dictGet (dictSetTriple m base iso ts ms) (base ++ "/micro_seconds_i") =
      some (.i (ms : Int)) := by
  unfold dictSetTriple
  refine ⟨?_, ?_, ?_⟩
  · rw [dictGet_dictSet_ne _ _ _ _ (string_append_right_ne base (by decide)),
      dictGet_dictSet_ne _ _ _ _ (string_append_right_ne base (by decide)),
      dictGet_dictSet_self]
  · rw [dictGet_dictSet_ne _ _ _ _ (string_append_right_ne base (by decide)),
      dictGet_dictSet_self]
  · rw [dictGet_dictSet_self]

theorem read_date_time_isoformat (dt : PyDateTime) (h1 : dt.tzOffset = some 0)
    (h2 : dt.microsecond < 1000000) :
    read_date_time (isoformat dt) =
      some (isoformat dt, int_of_float_secs (timestampMicro dt), dt.microsecond) := by
  unfold read_date_time
  rw [parse_iso_isoformat dt h1 h2]
  simp [check_timezone_of_utc dt h1]

/-- `t_keys[base]` as a read (first matching entry). -/
def tk_get {P : Type} (tks : List (String × P)) (base : String) : Option P :=
  (tks.find? (fun p => p.1 == base)).map Prod.snd

theorem tk_get_append {P : Type} (pre : List (String × P)) (base : String) (tv : P)
    (post : List (String × P)) (hpre : ∀ q ∈ pre, q.1 ≠ base) :
    tk_get (pre ++ (base, tv) :: post) base = some tv := by
  induction pre with
  | nil => simp [tk_get]
  | cons p rest ih =>
    have hp : p.1 ≠ base := hpre p (List.mem_cons_self p rest)
    unfold tk_get
    rw [List.cons_append,
      @List.find?_cons_of_neg _ (fun q => q.1 == base) p _ (by simp [hp])]
    exact ih fun q hq => hpre q (List.mem_cons_of_mem p hq)

theorem tk_get_mem {P : Type} (tks : List (String × P)) (base : String) (tv : P)
    (h : tk_get tks base = some tv) : base ∈ tks.map Prod.fst := by
  induction tks with
  | nil => cases h
  | cons p rest ih =>
    unfold tk_get at h
    rw [List.map_cons]
    by_cases hp : (p.1 == base) = true
    · exact List.mem_cons.mpr (Or.inl (eq_of_beq hp).symm)
    · rw [@List.find?_cons_of_neg _ (fun q => q.1 == base) p rest hp] at h
      exact List.mem_cons_of_mem _ (ih h)

theorem time_bases_nodup : time_bases.Nodup := by decide

/-- Keys built from distinct bases are pairwise distinct, for the five
recognised bases and the three time sub-keys. -/
theorem time_bases_sep : ∀ b ∈ time_bases, ∀ b' ∈ time_bases, b ≠ b' →
    (b ++ "/ascii_s" ≠ b' ++ "/ascii_s") ∧ (b ++ "/ascii_s" ≠ b' ++ "/epoch_l") ∧
    (b ++ "/ascii_s" ≠ b' ++ "/micro_seconds_i") ∧
    (b ++ "/epoch_l" ≠ b' ++ "/ascii_s") ∧ (b ++ "/epoch_l" ≠ b' ++ "/epoch_l") ∧
    (b ++ "/epoch_l" ≠ b' ++ "/micro_seconds_i") ∧
    (b ++ "/micro_seconds_i" ≠ b' ++ "/ascii_s") ∧
    (b ++ "/micro_seconds_i" ≠ b' ++ "/epoch_l") ∧
    (b ++ "/micro_seconds_i" ≠ b' ++ "/micro_seconds_i") := by decide

theorem keys_decompose {P : Type} (tks : List (String × P)) (bases : List String)
    (hkeys : tks.map Prod.fst = bases) (hnd : bases.Nodup) (base : String)
    (hb : base ∈ bases) :
    ∃ pre tv post, tks = pre ++ (base, tv) :: post ∧
      (∀ q ∈ pre, q.1 ∈ bases ∧ q.1 ≠ base) ∧
      (∀ q ∈ post, q.1 ∈ bases ∧ q.1 ≠ base) := by
  induction tks generalizing bases with
  | nil =>
    subst hkeys
    cases hb
  | cons p rest ih =>
    obtain ⟨k, v⟩ := p
    subst hkeys
    simp only [List.map_cons] at hnd hb ⊢
    rw [List.nodup_cons] at hnd
    rcases List.mem_cons.mp hb with heq | hb'
    · subst heq
      refine ⟨[], v, rest, rfl, by simp, ?_⟩
      intro q hq
      have hqmem : q.1 ∈ rest.map Prod.fst := List.mem_map_of_mem Prod.fst hq
      exact ⟨List.mem_cons_of_mem _ hqmem, fun hc => hnd.1 (hc ▸ hqmem)⟩
    · obtain ⟨pre, tv, post, heq, hpre, hpost⟩ := ih (rest.map Prod.fst) rfl hnd.2 hb'
      have hk : k ≠ base := fun hc => hnd.1 (hc ▸ hb')
      refine ⟨(k, v) :: pre, tv, post, by rw [heq]; rfl, ?_, ?_⟩
      · intro q hq
        rcases List.mem_cons.mp hq with hq' | hq'
        · subst hq'
          exact ⟨List.mem_cons_self _ _, hk⟩
        · obtain ⟨hmem, hne⟩ := hpre q hq'
          exact ⟨List.mem_cons_of_mem _ hmem, hne⟩
      · intro q hq
        obtain ⟨hmem, hne⟩ := hpost q hq
        exact ⟨List.mem_cons_of_mem _ hmem, hne⟩

theorem reconcile_base_ok (acc : List (String × MVal)) (base : String)
    (tv : Option PyDateTime × Option PyDateTime) (hg : GoodPair tv) :
    ∃ acc', reconcile_base acc base tv = .ok acc' := by
  rcases tv with ⟨s?, e?⟩
  cases s? with
  | none =>
    cases e? with
    | none => exact ⟨acc, rfl⟩
    | some dte =>
      have hgd := hg.2 dte rfl
      refine ⟨dictSetTriple acc base (isoformat dte)
        (int_of_float_secs (timestampMicro dte)) dte.microsecond, ?_⟩
      simp only [reconcile_base]
      rw [read_date_time_isoformat dte hgd.1 hgd.2]
  | some dts =>
    cases e? with
    | none =>
      have hgd := hg.1 dts rfl
      refine ⟨dictSetTriple acc base (isoformat dts)
        (int_of_float_secs (timestampMicro dts)) dts.microsecond, ?_⟩
      simp only [reconcile_base]
      rw [read_date_time_isoformat dts hgd.1 hgd.2]
    | some dte =>
      have hgd := hg.1 dts rfl
      by_cases hne : timestampMicro dte ≠ timestampMicro dts
      · refine ⟨dictSetTriple acc base (isoformat dts)
          (int_of_float_secs (timestampMicro dts)) dts.microsecond, ?_⟩
        simp only [reconcile_base, if_pos hne]
        rw [read_date_time_isoformat dts hgd.1 hgd.2]
      · exact ⟨acc, by simp only [reconcile_base, if_neg hne]⟩

theorem reconcile_base_writes (acc : List (String × MVal)) (base : String)
    (dts dte : PyDateTime) (hgd : GoodDT dts)
    (hne : timestampMicro dte ≠ timestampMicro dts) :
    reconcile_base acc base (some dts, some dte) =
      .ok (dictSetTriple acc base (isoformat dts)
        (int_of_float_secs (timestampMicro dts)) dts.microsecond) := by
  simp only [reconcile_base, if_pos hne]
  rw [read_date_time_isoformat dts hgd.1 hgd.2]

theorem reconcile_base_preserves (acc : List (String × MVal)) (base : String)
    (tv : Option PyDateTime × Option PyDateTime) (key : String) (hg : GoodPair tv)
    (h1 : key ≠ base ++ "/ascii_s") (h2 : key ≠ base ++ "/epoch_l")
    (h3 : key ≠ base ++ "/micro_seconds_i") :
    ∃ acc', reconcile_base acc base tv = .ok acc' ∧
      dictGet acc' key = dictGet acc key := by
  rcases tv with ⟨s?, e?⟩
  cases s? with
  | none =>
    cases e? with
    | none => exact ⟨acc, rfl, rfl⟩
    | some dte =>
      have hgd := hg.2 dte rfl
      refine ⟨dictSetTriple acc base (isoformat dte)
        (int_of_float_secs (timestampMicro dte)) dte.microsecond, ?_,
        dictGet_dictSetTriple_ne acc base _ _ _ key h1 h2 h3⟩
      simp only [reconcile_base]
      rw [read_date_time_isoformat dte hgd.1 hgd.2]
  | some dts =>
    cases e? with
    | none =>
      have hgd := hg.1 dts rfl
      refine ⟨dictSetTriple acc base (isoformat dts)
        (int_of_float_secs (timestampMicro dts)) dts.microsecond, ?_,
        dictGet_dictSetTriple_ne acc base _ _ _ key h1 h2 h3⟩
      simp only [reconcile_base]
      rw [read_date_time_isoformat dts hgd.1 hgd.2]
    | some dte =>
      have hgd := hg.1 dts rfl
      by_cases hne : timestampMicro dte ≠ timestampMicro dts
      · refine ⟨dictSetTriple acc base (isoformat dts)
          (int_of_float_secs (timestampMicro dts)) dts.microsecond, ?_,
          dictGet_dictSetTriple_ne acc base _ _ _ key h1 h2 h3⟩
        simp only [reconcile_base, if_pos hne]
        rw [read_date_time_isoformat dts hgd.1 hgd.2]
      · exact ⟨acc, by simp only [reconcile_base, if_neg hne], rfl⟩

theorem except_foldlM_append {α β ε : Type} (f : β → α → Except ε β)
    (l1 l2 : List α) (b : β) :
    List.foldlM f b (l1 ++ l2) =
      (List.foldlM f b l1).bind fun m => List.foldlM f m l2 := by
  induction l1 generalizing b with
  | nil => rfl
  | cons x xs ih =>
    rw [List.cons_append, List.foldlM_cons, List.foldlM_cons]
    cases hfx : f b x with
    | error e => rfl
    | ok b1 => exact ih b1

theorem reconcile_fold_ok
    (l : List (String × (Option PyDateTime × Option PyDateTime))) :
    ∀ acc, (∀ q ∈ l, GoodPair q.2) →
      ∃ out, List.foldlM (fun acc p => reconcile_base acc p.1 p.2) acc l =
        .ok out := by
  induction l with
  | nil => exact fun acc _ => ⟨acc, rfl⟩
  | cons q qs ih =>
    intro acc hg
    obtain ⟨m1, hm1⟩ :=
      reconcile_base_ok acc q.1 q.2 (hg q (List.mem_cons_self q qs))
    obtain ⟨out, hout⟩ := ih m1 fun x hx => hg x (List.mem_cons_of_mem q hx)
    refine ⟨out, ?_⟩
    rw [List.foldlM_cons]
    show (reconcile_base acc q.1 q.2) >>= _ = .ok out
    rw [hm1]
    exact hout

theorem reconcile_fold_preserve
    (l : List (String × (Option PyDateTime × Option PyDateTime))) :
    ∀ acc (key : String), (∀ q ∈ l, GoodPair q.2) →
      (∀ q ∈ l, key ≠ q.1 ++ "/ascii_s" ∧ key ≠ q.1 ++ "/epoch_l" ∧
        key ≠ q.1 ++ "/micro_seconds_i") →
      ∃ out, List.foldlM (fun acc p => reconcile_base acc p.1 p.2) acc l =
        .ok out ∧ dictGet out key = dictGet acc key := by
  induction l with
  | nil => exact fun acc _ _ _ => ⟨acc, rfl, rfl⟩
  | cons q qs ih =>
    intro acc key hg hk
    obtain ⟨hk1, hk2, hk3⟩ := hk q (List.mem_cons_self q qs)
    obtain ⟨m1, hm1, hget1⟩ :=
      reconcile_base_preserves acc q.1 q.2 key (hg q (List.mem_cons_self q qs))
        hk1 hk2 hk3
    obtain ⟨out, hout, hget2⟩ := ih m1 key
      (fun x hx => hg x (List.mem_cons_of_mem q hx))
      (fun x hx => hk x (List.mem_cons_of_mem q hx))
    refine ⟨out, ?_, hget2.trans hget1⟩
    rw [List.foldlM_cons]
    show (reconcile_base acc q.1 q.2) >>= _ = .ok out
    rw [hm1]
    exact hout

/-!  ## Claim C8  -/

/-- C8, confirmed.  For every metadata dictionary whose extraction yields,
for some time-field base, both an ascii-derived and an epoch-derived datetime
that denote different instants, `validate_time_metadata` succeeds (the
conflict is not fatal) and rewrites that base's `ascii_s`, `epoch_l` and
`micro_seconds_i` entries to the decomposition of the *ascii* datetime: its
isoformat, `int()` of its timestamp, and its microsecond field — not the
original epoch value.  (`loc` is the host's UTC offset, consumed by
`datetime.fromtimestamp` during extraction.) -/
theorem C8_time_reconciliation (loc : Int) (meta : List (String × MVal))
    (base : String)
    (tks : List (String × (Option PyDateTime × Option PyDateTime)))
    (dts dte : PyDateTime)
    (hex : validate_extract loc meta = .ok tks)
    (htv : tk_get tks base = some (some dts, some dte))
    (hne : timestampMicro dte ≠ timestampMicro dts) :
    ∃ out, validate_time_metadata loc meta = .ok out ∧
      dictGet out (base ++ "/ascii_s") = some (.s (isoformat dts)) ∧
      dictGet out (base ++ "/epoch_l") =
        some (.i (int_of_float_secs (timestampMicro dts))) ∧
      dictGet out (base ++ "/micro_seconds_i") =
        some (.i (dts.microsecond : Int)) := by
  obtain ⟨hkeys, hgood⟩ := validate_extract_good loc meta tks hex
  have hbase : base ∈ time_bases := hkeys ▸ tk_get_mem tks base _ htv
  obtain ⟨pre, tv, post, htks, hpre, hpost⟩ :=
    keys_decompose tks time_bases hkeys time_bases_nodup base hbase
  have htv' : tv = (some dts, some dte) := by
    have := tk_get_append pre base tv post fun q hq => (hpre q hq).2
    rw [← htks, htv] at this
    exact (Option.some.inj this).symm
  subst htv'
  subst htks
  have hgd : GoodDT dts :=
    (hgood (base, (some dts, some dte))
      (List.mem_append.mpr (Or.inr (List.mem_cons_self _ _)))).1 dts rfl
  obtain ⟨m1, hm1⟩ := reconcile_fold_ok pre meta fun q hq =>
    hgood q (List.mem_append.mpr (Or.inl hq))
  have hkeyfacts : ∀ (key suffix : String), key = base ++ suffix →
      suffix = "/ascii_s" ∨ suffix = "/epoch_l" ∨ suffix = "/micro_seconds_i" →
      ∀ q ∈ post, key ≠ q.1 ++ "/ascii_s" ∧ key ≠ q.1 ++ "/epoch_l" ∧
        key ≠ q.1 ++ "/micro_seconds_i" := by
    intro key suffix hkey hsuf q hq
    obtain ⟨hqmem, hqne⟩ := hpost q hq
    have hsep := time_bases_sep base hbase q.1 hqmem (fun hc => hqne (hc.symm))
    subst hkey
    rcases hsuf with rfl | rfl | rfl
    · exact ⟨hsep.1, hsep.2.1, hsep.2.2.1⟩
    · exact ⟨hsep.2.2.2.1, hsep.2.2.2.2.1, hsep.2.2.2.2.2.1⟩
    · exact ⟨hsep.2.2.2.2.2.2.1, hsep.2.2.2.2.2.2.2.1, hsep.2.2.2.2.2.2.2.2⟩
  have hgoodpost : ∀ q ∈ post, GoodPair q.2 := fun q hq =>
    hgood q (List.mem_append.mpr (Or.inr (List.mem_cons_of_mem _ hq)))
  set written := dictSetTriple m1 base (isoformat dts)
    (int_of_float_secs (timestampMicro dts)) dts.microsecond with hwr
  obtain ⟨out1, hout1, hget1⟩ := reconcile_fold_preserve post written
    (base ++ "/ascii_s") hgoodpost
    (hkeyfacts _ "/ascii_s" rfl (Or.inl rfl))
  obtain ⟨out2, hout2, hget2⟩ := reconcile_fold_preserve post written
    (base ++ "/epoch_l") hgoodpost
    (hkeyfacts _ "/epoch_l" rfl (Or.inr (Or.inl rfl)))
  obtain ⟨out3, hout3, hget3⟩ := reconcile_fold_preserve post written
    (base ++ "/micro_seconds_i") hgoodpost
    (hkeyfacts _ "/micro_seconds_i" rfl (Or.inr (Or.inr rfl)))
  have hout21 : out2 = out1 := by
    rw [hout1] at hout2
    exact (Except.ok.inj hout2).symm
  have hout31 : out3 = out1 := by
    rw [hout1] at hout3
    exact (Except.ok.inj hout3).symm
  rw [hout21] at hget2
  rw [hout31] at hget3
  obtain ⟨hsa, hse, hsm⟩ := dictGet_dictSetTriple_self m1 base (isoformat dts)
    (int_of_float_secs (timestampMicro dts)) dts.microsecond
  refine ⟨out1, ?_, ?_, ?_, ?_⟩
  · unfold validate_time_metadata
    rw [hex]
    show List.foldlM (fun acc p => reconcile_base acc p.1 p.2) meta
      (pre ++ (base, (some dts, some dte)) :: post) = .ok out1
    rw [except_foldlM_append, hm1]
    show List.foldlM (fun acc p => reconcile_base acc p.1 p.2) m1
      ((base, (some dts, some dte)) :: post) = .ok out1
    rw [List.foldlM_cons]
    show (reconcile_base m1 base (some dts, some dte)) >>= _ = .ok out1
    rw [reconcile_base_writes m1 base dts dte hgd hne]
    exact hout1
  · rw [hget1, hwr]
    exact hsa
  · rw [hget2, hwr]
    exact hse
  · rw [hget3, hwr]
    exact hsm

/-- The spec's worked instance: an ascii time of 2020-01-01T00:00:10.500000
next to an epoch value denoting 2020-01-01T00:00:09. -/
def metaC8 : List (String × MVal) :=
  [("start_time/ascii_s", MVal.s "2020-01-01T00:00:10.500000"),
   ("start_time/epoch_l", MVal.i 1577836809)]

/-- The ascii-derived datetime of `metaC8` (after `check_timezone`). -/
def dtsC8 : PyDateTime := ⟨2020, 1, 1, 0, 0, 10, 500000, some 0⟩

/-- The epoch-derived datetime of `metaC8` (after `check_timezone`). -/
def dteC8 : PyDateTime := ⟨2020, 1, 1, 0, 0, 9, 0, some 0⟩

/-- What the extraction loop produces on `metaC8`. -/
def tksC8 : List (String × (Option PyDateTime × Option PyDateTime)) :=
  [("deploy_time", (none, none)), ("pickup_time", (none, none)),
   ("start_time", (some dtsC8, some dteC8)),
   ("end_time", (none, none)), ("time_stamp", (none, none))]

theorem C8_time_reconciliation_witness :
    validate_extract 0 metaC8 = .ok tksC8 ∧
    tk_get tksC8 "start_time" = some (some dtsC8, some dteC8) ∧
    timestampMicro dteC8 ≠ timestampMicro dtsC8 ∧
    (∃ out, validate_time_metadata 0 metaC8 = .ok out ∧
      dictGet out ("start_time" ++ "/ascii_s") =
        some (.s (isoformat dtsC8)) ∧
      dictGet out ("start_time" ++ "/epoch_l") =
        some (.i (int_of_float_secs (timestampMicro dtsC8))) ∧
      dictGet out ("start_time" ++ "/micro_seconds_i") =
        some (.i (dtsC8.microsecond : Int))) :=
  ⟨rfl, rfl, by decide,
   C8_time_reconciliation 0 metaC8 "start_time" tksC8 dtsC8 dteC8
     rfl rfl (by decide)⟩

/-!  ## Claim C10  -/

/-- C10, confirmed.  `check_timezone` maps every naive or non-UTC datetime to
the SAME wall-clock fields stamped UTC: (1) for such a datetime the result is
literally the input with `tzinfo` replaced by UTC; (2) hence an aware input at
a non-zero offset `o` comes out denoting a different absolute instant, shifted
by exactly `o` seconds — a reinterpretation, not an offset conversion; and
(3) every datetime stored by `validate_time_metadata`'s extraction loop (from
either the ascii or the epoch branch) has passed through it, so all carry
tzinfo UTC. -/
theorem C10_timezone_reinterpretation (dt dt2 : PyDateTime) (o : Int)
    (loc : Int) (meta : List (String × MVal))
    (tks : List (String × (Option PyDateTime × Option PyDateTime)))
    (h1 : dt.tzOffset = none ∨ dt.tzOffset ≠ some 0)
    (h2 : dt2.tzOffset = some o) (ho : o ≠ 0)
    (hex : validate_extract loc meta = .ok tks) :
    check_timezone dt = { dt with tzOffset := some 0 } ∧
    (timestampMicro (check_timezone dt2) =
        timestampMicro dt2 + o * 1000000 ∧
     timestampMicro (check_timezone dt2) ≠ timestampMicro dt2) ∧
    ∀ q ∈ tks, (∀ d, q.2.1 = some d → d.tzOffset = some 0) ∧
      (∀ d, q.2.2 = some d → d.tzOffset = some 0) := by
  have hct2 : check_timezone dt2 = { dt2 with tzOffset := some 0 } := by
    unfold check_timezone
    rw [if_pos]
    exact Or.inr (by rw [h2]; exact fun hc => ho (Option.some.inj hc))
  have heq : timestampMicro (check_timezone dt2) =
      timestampMicro dt2 + o * 1000000 := by
    rw [hct2]
    simp only [timestampMicro, wallSeconds, h2]
    simp
  refine ⟨?_, ⟨heq, ?_⟩, ?_⟩
  · unfold check_timezone
    rw [if_pos h1]
  · rw [heq]
    intro hc
    omega
  · have hgood := (validate_extract_good loc meta tks hex).2
    exact fun q hq =>
      ⟨fun d hd => ((hgood q hq).1 d hd).1, fun d hd => ((hgood q hq).2 d hd).1⟩

/-- A naive (timezone-free) datetime. -/
def dt10 : PyDateTime := ⟨2020, 1, 1, 12, 0, 0, 0, none⟩

/-- An aware datetime at UTC+1 (offset 3600 s). -/
def dt10b : PyDateTime := ⟨2020, 1, 1, 12, 0, 0, 0, some 3600⟩

/-- A metadata dictionary with a single epoch entry. -/
def meta10 : List (String × MVal) := [("start_time/epoch_l", MVal.i 100)]

/-- What the extraction loop produces on `meta10`. -/
def tks10 : List (String × (Option PyDateTime × Option PyDateTime)) :=
  [("deploy_time", (none, none)), ("pickup_time", (none, none)),
   ("start_time", (none, some ⟨1970, 1, 1, 0, 1, 40, 0, some 0⟩)),
   ("end_time", (none, none)), ("time_stamp", (none, none))]

theorem C10_timezone_reinterpretation_witness :
    (dt10.tzOffset = none ∨ dt10.tzOffset ≠ some 0) ∧
    dt10b.tzOffset = some 3600 ∧ (3600 : Int) ≠ 0 ∧
    validate_extract 0 meta10 = .ok tks10 ∧
    (check_timezone dt10 = { dt10 with tzOffset := some 0 } ∧
     (timestampMicro (check_timezone dt10b) =
        timestampMicro dt10b + 3600 * 1000000 ∧
      timestampMicro (check_timezone dt10b) ≠ timestampMicro dt10b) ∧
     ∀ q ∈ tks10, (∀ d, q.2.1 = some d → d.tzOffset = some 0) ∧
       (∀ d, q.2.2 = some d → d.tzOffset = some 0)) :=
  ⟨Or.inl rfl, rfl, by decide, rfl,
   C10_timezone_reinterpretation dt10 dt10b 3600 0 meta10 tks10
     (Or.inl rfl) rfl (by decide) rfl⟩

end Mt2Ph5
